import Mathlib

/-!
The NVML polling loop of `baseline.cpp`

A shallow embedding of `src/baseline.cpp`.

* The NVML library is an external collaborator.  It is represented by a `World`:
  a script that fixes what every library call returns and what it leaves in the
  caller's output buffer, together with the arrival schedule of `SIGINT`.
* `double` is IEEE-754 binary64 with round-to-nearest, ties-to-even (the arithmetic
  `g++` emits on the platforms the build line of the file targets).  Finite values are
  carried as exact rationals; every operation rounds its exact result.
* The program's observable behaviour is a chronological trace of library calls,
  writes to `std::cout`, writes to `std::cerr` and sleeps, plus the exit status.
-/

namespace Baseline

/-! ## binary64 arithmetic -/

/-- Nearest integer to `x`, a tie going to the even neighbour. -/
def roundHalfEven (x : ℚ) : ℤ :=
  if x - ⌊x⌋ < 1 / 2 then ⌊x⌋
  else if 1 / 2 < x - ⌊x⌋ then ⌊x⌋ + 1
  else if ⌊x⌋ % 2 = 0 then ⌊x⌋ else ⌊x⌋ + 1

/-- Exponent `e` of the binade `[2^e, 2^(e+1))` that holds `|q|`; values below the least
normal number `2^-1022` share the exponent of the subnormal range. -/
def binadeExp (q : ℚ) : ℤ := max (Int.log 2 |q|) (-1022)

/-- Spacing of binary64 numbers around `q`: 53 significant bits. -/
def ulp (q : ℚ) : ℚ := (2 : ℚ) ^ (binadeExp q - 52)

/-- The multiple of `ulp q` nearest to `q`, ties to even. -/
def roundNearestEven (q : ℚ) : ℚ := (roundHalfEven (q / ulp q) : ℚ) * ulp q

/-- Values of type `double`.  Zero carries no sign: no operation of the program can
produce a negative zero. -/
inductive Double where
  | finite (q : ℚ)
  | inf (negative : Bool)
  | nan
  deriving DecidableEq

namespace Double

/-- Correctly rounded result of an operation whose exact value is `q`; an overflowing
result is an infinity. -/
def ofRat (q : ℚ) : Double :=
  if (2 : ℚ) ^ (1024 : ℕ) ≤ |roundNearestEven q| then inf (decide (q < 0))
  else finite (roundNearestEven q)

/-- Conversion of an `unsigned long long` to `double`. -/
def ofUInt64 (n : ℕ) : Double := ofRat (n : ℚ)

/-- Operator `/` on `double`. -/
def div : Double → Double → Double
  | finite a, finite b =>
    if b = 0 then (if a = 0 then nan else inf (decide (a < 0))) else ofRat (a / b)
  | finite _, inf _ => finite 0
  | inf s, finite b => inf (xor s (decide (b < 0)))
  | inf _, inf _ => nan
  | nan, _ => nan
  | finite _, nan => nan
  | inf _, nan => nan

/-- Operator `*` on `double`. -/
def mul : Double → Double → Double
  | finite a, finite b => ofRat (a * b)
  | finite a, inf s => if a = 0 then nan else inf (xor s (decide (a < 0)))
  | inf s, finite b => if b = 0 then nan else inf (xor s (decide (b < 0)))
  | inf s, inf t => inf (xor s t)
  | nan, _ => nan
  | finite _, nan => nan
  | inf _, nan => nan

end Double

/-! ## The NVML boundary -/

/-- Return code of an NVML call (`nvmlReturn_t`). -/
abbrev nvmlReturn_t := ℕ

/-- The success code of `nvml.h`. -/
def NVML_SUCCESS : nvmlReturn_t := 0

/-- Opaque device handle. -/
abbrev nvmlDevice_t := ℕ

/-- Buffer filled by `nvmlDeviceGetUtilizationRates`. -/
structure nvmlUtilization_t where
  gpu : ℕ
  memory : ℕ
  deriving DecidableEq

/-- Buffer filled by `nvmlDeviceGetMemoryInfo`; the fields are `unsigned long long`. -/
structure nvmlMemory_t where
  total : ℕ
  free : ℕ
  used : ℕ
  deriving DecidableEq

/-- Number of the interrupt signal. -/
def SIGINT : ℤ := 2

/-- Sampling interval of the loop in milliseconds. -/
def SAMPLING_INTERVAL_MS : ℕ := 500

/-- Everything outside the program.  Each library entry gives the return code of the
call and the content of the caller's output buffer once the call is over (what the
library stored there, or what the uninitialised local happened to hold).  Calls made
inside the loop are scripted per iteration.  `sigint line k` is the number of
interrupt signals that are handled just before the statement starting at source line
`line` runs, in loop iteration `k` (`k = 0` outside the loop).  Interrupts are taken
at the boundaries of the statements of `main` and of the loop body; an `if` with its
arms is one statement, and an interrupt that arrives during the sleep of line 119 is
handled before the next reading of the flag at line 87. -/
structure World where
  nvmlInit : nvmlReturn_t
  nvmlDeviceGetCount : nvmlReturn_t × ℕ
  nvmlDeviceGetHandleByIndex : ℕ → nvmlReturn_t × nvmlDevice_t
  nvmlDeviceGetName : nvmlDevice_t → nvmlReturn_t × String
  nvmlDeviceGetUtilizationRates : ℕ → nvmlDevice_t → nvmlReturn_t × nvmlUtilization_t
  nvmlDeviceGetMemoryInfo : ℕ → nvmlDevice_t → nvmlReturn_t × nvmlMemory_t
  nvmlShutdown : nvmlReturn_t
  nvmlErrorString : nvmlReturn_t → String
  sigint : ℕ → ℕ → ℕ

/-- A call into the library. -/
inductive Call where
  | nvmlInit
  | nvmlDeviceGetCount
  | nvmlDeviceGetHandleByIndex (index : ℕ)
  | nvmlDeviceGetName (device : nvmlDevice_t)
  | nvmlDeviceGetUtilizationRates (device : nvmlDevice_t)
  | nvmlDeviceGetMemoryInfo (device : nvmlDevice_t)
  | nvmlShutdown
  | nvmlErrorString (result : nvmlReturn_t)
  deriving DecidableEq

/-- One item written to `std::cout`: a line of text, or the sample line of an
iteration with the four values streamed into it. -/
inductive Out where
  | text (s : String)
  | sample (gpu : ℕ) (memUsedMB memTotalMB memUsagePercent : Double)
  deriving DecidableEq

/-- Observable actions of the process, in the order they happen. -/
inductive Event where
  | call (c : Call)
  | out (o : Out)
  | err (line : String)
  | sleep (ms : ℕ)
  deriving DecidableEq

/-- Program state: the global flag and the actions performed so far. -/
structure State where
  g_Running : Bool
  trace : List Event
  deriving DecidableEq

namespace State

/-- Record a library call. -/
def call (s : State) (c : Call) : State := { s with trace := s.trace ++ [Event.call c] }

/-- Write to `std::cout`. -/
def cout (s : State) (o : Out) : State := { s with trace := s.trace ++ [Event.out o] }

/-- Write a diagnostic line to `std::cerr`. -/
def cerr (s : State) (line : String) : State := { s with trace := s.trace ++ [Event.err line] }

/-- Block for the given number of milliseconds. -/
def sleep (s : State) (ms : ℕ) : State := { s with trace := s.trace ++ [Event.sleep ms] }

end State

/-- Library calls of a trace, in order. -/
def calls (t : List Event) : List Call :=
  t.filterMap fun e => match e with
    | Event.call c => some c
    | _ => none

/-- What a trace writes to `std::cout`, in order. -/
def stdout (t : List Event) : List Out :=
  t.filterMap fun e => match e with
    | Event.out o => some o
    | _ => none

/-- What a trace writes to `std::cerr`, in order. -/
def stderr (t : List Event) : List String :=
  t.filterMap fun e => match e with
    | Event.err l => some l
    | _ => none

/-- The error-to-string lookup, as opposed to the calls that use the library context. -/
def Call.isErrorString : Call → Bool
  | Call.nvmlErrorString _ => true
  | _ => false

/-- A utilization or memory query. -/
def Call.isQuery : Call → Bool
  | Call.nvmlDeviceGetUtilizationRates _ => true
  | Call.nvmlDeviceGetMemoryInfo _ => true
  | _ => false

/-- A sample line on `std::cout`. -/
def Out.isSample : Out → Bool
  | Out.sample _ _ _ _ => true
  | _ => false

/-! ## The program -/

/-- Text streamed to `std::cout` at line 34. -/
def interruptMessage (signum : ℤ) : String :=
  "\nInterrupt signal (" ++ toString signum ++ ") received. Stopping...\n"

/-- Lines 32-36: the handler prints a message on `std::cout` and clears `g_Running`. -/
def signalHandler (signum : ℤ) (s : State) : State :=
  { g_Running := false
    trace := s.trace ++ [Event.out (Out.text (interruptMessage signum))] }

/-- Run the handler for every interrupt that arrives before the statement at `line`. -/
def deliver (W : World) (line k : ℕ) (s : State) : State :=
  (signalHandler SIGINT)^[W.sigint line k] s

/-- The pattern `std::cerr << prefix << nvmlErrorString(nvmlResult) << std::endl`. -/
def report (W : World) (pre : String) (nvmlResult : nvmlReturn_t) (s : State) : State :=
  (s.call (Call.nvmlErrorString nvmlResult)).cerr (pre ++ W.nvmlErrorString nvmlResult ++ "\n")

/-- Line 108. -/
def memUsedMB (memInfo : nvmlMemory_t) : Double :=
  ((Double.ofUInt64 memInfo.used).div (Double.finite 1024)).div (Double.finite 1024)

/-- Line 109. -/
def memTotalMB (memInfo : nvmlMemory_t) : Double :=
  ((Double.ofUInt64 memInfo.total).div (Double.finite 1024)).div (Double.finite 1024)

/-- Line 110. -/
def memUsagePercent (memInfo : nvmlMemory_t) : Double :=
  ((memUsedMB memInfo).div (memTotalMB memInfo)).mul (Double.finite 100)

/-- Lines 113-116: the sample line. -/
def sampleLine (utilization : nvmlUtilization_t) (memInfo : nvmlMemory_t) : Out :=
  Out.sample utilization.gpu (memUsedMB memInfo) (memTotalMB memInfo) (memUsagePercent memInfo)

/-- Lines 89-119: body of the polling loop, iteration `k`. -/
def iteration (W : World) (device : nvmlDevice_t) (k : ℕ) (s : State) : State :=
  let s := (deliver W 91 k s).call (Call.nvmlDeviceGetUtilizationRates device)
  let s := deliver W 92 k s
  let s := if (W.nvmlDeviceGetUtilizationRates k device).1 ≠ NVML_SUCCESS then
      report W "Error: Unable to get utilization rates: " (W.nvmlDeviceGetUtilizationRates k device).1 s
    else s
  let s := (deliver W 100 k s).call (Call.nvmlDeviceGetMemoryInfo device)
  let s := deliver W 101 k s
  let s := if (W.nvmlDeviceGetMemoryInfo k device).1 ≠ NVML_SUCCESS then
      report W "Error: Unable to get memory info: " (W.nvmlDeviceGetMemoryInfo k device).1 s
    else s
  let s := (deliver W 113 k s).cout
    (sampleLine (W.nvmlDeviceGetUtilizationRates k device).2 (W.nvmlDeviceGetMemoryInfo k device).2)
  (deliver W 119 k s).sleep SAMPLING_INTERVAL_MS

/-- Lines 87-120: `while (g_Running) { ... }`, entered with iteration counter `k`.  The
flag is read once per round, after the interrupts that arrived since the previous
statement have been handled.  `none`: the fuel ran out before the flag was found
cleared. -/
def pollingLoop (W : World) (device : nvmlDevice_t) : ℕ → ℕ → State → Option State
  | 0, _, _ => none
  | fuel + 1, k, s =>
    if (deliver W 87 k s).g_Running then
      pollingLoop W device fuel (k + 1) (iteration W device k (deliver W 87 k s))
    else some (deliver W 87 k s)

/-- Exit status and final state of a run. -/
structure Result where
  exit : ℤ
  final : State
  deriving DecidableEq

/-- Lines 122-132. -/
def shutdown (W : World) (s : State) : Result :=
  let s := (deliver W 123 0 s).call Call.nvmlShutdown
  let s := deliver W 124 0 s
  if W.nvmlShutdown ≠ NVML_SUCCESS then
    ⟨1, report W "Error shutting down NVML: " W.nvmlShutdown s⟩
  else
    ⟨0, (deliver W 131 0 s).cout (Out.text "Done. Exiting normally.\n")⟩

/-- Lines 73-84: best-effort lookup of the device name. -/
def lookupName (W : World) (device : nvmlDevice_t) (s : State) : State :=
  let s := (deliver W 75 0 s).call (Call.nvmlDeviceGetName device)
  let s := deliver W 76 0 s
  if (W.nvmlDeviceGetName device).1 ≠ NVML_SUCCESS then
    report W "Error: Unable to get device name: " (W.nvmlDeviceGetName device).1 s
  else
    s.cout (Out.text ("Using GPU: " ++ (W.nvmlDeviceGetName device).2 ++ "\n"))

/-- State in which `main` starts: the handler has just been installed (line 41). -/
def initial : State := ⟨true, []⟩

/-- Lines 38-133. -/
def main (W : World) (fuel : ℕ) : Option Result :=
  let s := (deliver W 43 0 initial).call Call.nvmlInit
  let s := deliver W 44 0 s
  if W.nvmlInit ≠ NVML_SUCCESS then
    some ⟨1, report W "Error initializing NVML: " W.nvmlInit s⟩
  else
    let s := (deliver W 53 0 s).call Call.nvmlDeviceGetCount
    let s := deliver W 54 0 s
    if W.nvmlDeviceGetCount.1 ≠ NVML_SUCCESS ∨ W.nvmlDeviceGetCount.2 = 0 then
      some ⟨1, (report W "Error: No NVIDIA devices found or NVML error: "
        W.nvmlDeviceGetCount.1 s).call Call.nvmlShutdown⟩
    else
      let s := (deliver W 64 0 s).call (Call.nvmlDeviceGetHandleByIndex 0)
      let s := deliver W 65 0 s
      if (W.nvmlDeviceGetHandleByIndex 0).1 ≠ NVML_SUCCESS then
        some ⟨1, (report W "Error: Unable to get handle for device 0: "
          (W.nvmlDeviceGetHandleByIndex 0).1 s).call Call.nvmlShutdown⟩
      else
        let device := (W.nvmlDeviceGetHandleByIndex 0).2
        (pollingLoop W device fuel 0 (lookupName W device s)).map (shutdown W)

/-! ## Auxiliary definitions for the proofs -/

/-- Events appended when the interrupts pending before `line` are handled. -/
def interrupts (W : World) (line k : ℕ) : List Event :=
  List.replicate (W.sigint line k) (Event.out (Out.text (interruptMessage SIGINT)))

/-- Events of one error report. -/
def reportEvents (W : World) (pre : String) (nvmlResult : nvmlReturn_t) : List Event :=
  [Event.call (Call.nvmlErrorString nvmlResult),
   Event.err (pre ++ W.nvmlErrorString nvmlResult ++ "\n")]

/-- Events appended by iteration `k` of the loop body. -/
def iterationEvents (W : World) (device : nvmlDevice_t) (k : ℕ) : List Event :=
  (iteration W device k initial).trace

/-- No interrupt is handled during iteration `k` of the loop body. -/
def quietIteration (W : World) (k : ℕ) : Prop :=
  W.sigint 91 k = 0 ∧ W.sigint 92 k = 0 ∧ W.sigint 100 k = 0 ∧ W.sigint 101 k = 0 ∧
    W.sigint 113 k = 0 ∧ W.sigint 119 k = 0

/-- Events of `n` consecutive rounds of the loop (flag check, then body), the first
being iteration `k`. -/
def loopEvents (W : World) (device : nvmlDevice_t) : ℕ → ℕ → List Event
  | 0, _ => []
  | n + 1, k => interrupts W 87 k ++ (iterationEvents W device k ++ loopEvents W device n (k + 1))

/-- State in which the loop condition is read for the `(n + 1)`-th time (the interrupts
pending at that point have been handled), in a loop entered in state `s` with iteration
counter `k`. -/
def roundState (W : World) (device : nvmlDevice_t) (k : ℕ) (s : State) : ℕ → State
  | 0 => deliver W 87 k s
  | n + 1 => deliver W 87 (k + (n + 1)) (iteration W device (k + n) (roundState W device k s n))

/-- Events appended by the best-effort name lookup. -/
def lookupNameEvents (W : World) (device : nvmlDevice_t) : List Event :=
  (lookupName W device initial).trace

/-- Events appended by lines 122-132. -/
def shutdownEvents (W : World) : List Event :=
  (shutdown W initial).final.trace

/-- State before line 75 of a run in which `nvmlInit`, `nvmlDeviceGetCount` and
`nvmlDeviceGetHandleByIndex` have succeeded. -/
def handleAcquired (W : World) : State :=
  deliver W 65 0 ((deliver W 64 0 (deliver W 54 0 ((deliver W 53 0
    (deliver W 44 0 ((deliver W 43 0 initial).call Call.nvmlInit))).call
      Call.nvmlDeviceGetCount))).call (Call.nvmlDeviceGetHandleByIndex 0))

/-- The device the loop polls: the handle stored by `nvmlDeviceGetHandleByIndex(0, ..)`. -/
def selectedDevice (W : World) : nvmlDevice_t := (W.nvmlDeviceGetHandleByIndex 0).2

/-- State in which the loop is entered (line 87) after a successful start-up. -/
def loopEntry (W : World) : State := lookupName W (selectedDevice W) (handleAcquired W)

/-- A utilization query, a memory query or the shutdown. -/
def Call.isQueryOrShutdown : Call → Bool
  | Call.nvmlDeviceGetUtilizationRates _ => true
  | Call.nvmlDeviceGetMemoryInfo _ => true
  | Call.nvmlShutdown => true
  | _ => false

/-- The start-up of lines 43-71 succeeds. -/
def startupOk (W : World) : Prop :=
  W.nvmlInit = NVML_SUCCESS ∧ W.nvmlDeviceGetCount.1 = NVML_SUCCESS ∧
    0 < W.nvmlDeviceGetCount.2 ∧ (W.nvmlDeviceGetHandleByIndex 0).1 = NVML_SUCCESS

instance (W : World) : Decidable (startupOk W) := by
  unfold startupOk; infer_instance

instance (W : World) (k : ℕ) : Decidable (quietIteration W k) := by
  unfold quietIteration; infer_instance

/-- An event the polling loop can produce for the given device: a query, an error
lookup, any output, a sleep. -/
def Event.inLoop (device : nvmlDevice_t) : Event → Prop
  | Event.call (Call.nvmlDeviceGetUtilizationRates d) => d = device
  | Event.call (Call.nvmlDeviceGetMemoryInfo d) => d = device
  | Event.call (Call.nvmlErrorString _) => True
  | Event.call _ => False
  | _ => True

/-- A positive normal binary64 number, up to the bound on the exponent: a 53-bit
significand `m` scaled by a power of two from `2^-1022` on. -/
def Sig53 (f : ℚ) : Prop :=
  ∃ m e : ℤ, 2 ^ 52 ≤ m ∧ m < 2 ^ 53 ∧ -1022 ≤ e ∧ f = (m : ℚ) * (2 : ℚ) ^ (e - 52)

/-- A scripted library on which every call succeeds: one device, a half-used GiB of
memory, and a single interrupt that arrives while the first iteration sleeps. -/
def sampleWorld : World :=
  { nvmlInit := NVML_SUCCESS
    nvmlDeviceGetCount := (NVML_SUCCESS, 1)
    nvmlDeviceGetHandleByIndex := fun _ => (NVML_SUCCESS, 7)
    nvmlDeviceGetName := fun _ => (NVML_SUCCESS, "GPU-0")
    nvmlDeviceGetUtilizationRates := fun _ _ => (NVML_SUCCESS, ⟨37, 12⟩)
    nvmlDeviceGetMemoryInfo := fun _ _ => (NVML_SUCCESS, ⟨1073741824, 536870912, 536870912⟩)
    nvmlShutdown := NVML_SUCCESS
    nvmlErrorString := fun r => if r = 0 then "Success" else "Unknown Error"
    sigint := fun line k => if line = 119 ∧ k = 0 then 1 else 0 }

/-- The scripted library with a failing name lookup (code 6); its run ends after one
round. -/
def nameFailureWorld : World :=
  { sampleWorld with nvmlDeviceGetName := fun _ => (6, "") }

/-- The same library without any interrupt: its run never leaves the loop. -/
def quietNameFailureWorld : World :=
  { nameFailureWorld with sigint := fun _ _ => 0 }

/-! ## Basic facts on states and traces -/

theorem deliver_trace (W : World) (line k : ℕ) (s : State) :
    (deliver W line k s).trace = s.trace ++ interrupts W line k := by
  unfold deliver interrupts
  induction W.sigint line k generalizing s with
  | zero => simp
  | succ n ih =>
    rw [Function.iterate_succ_apply, ih]
    simp [signalHandler, List.replicate_succ]

theorem deliver_running (W : World) (line k : ℕ) (s : State) :
    (deliver W line k s).g_Running = (s.g_Running && decide (W.sigint line k = 0)) := by
  unfold deliver
  induction W.sigint line k generalizing s with
  | zero => simp
  | succ n ih =>
    rw [Function.iterate_succ_apply, ih]
    simp [signalHandler]

@[simp]
theorem call_trace (s : State) (c : Call) :
    (s.call c).trace = s.trace ++ [Event.call c] := rfl

@[simp]
theorem cout_trace (s : State) (o : Out) :
    (s.cout o).trace = s.trace ++ [Event.out o] := rfl

@[simp]
theorem cerr_trace (s : State) (l : String) :
    (s.cerr l).trace = s.trace ++ [Event.err l] := rfl

@[simp]
theorem sleep_trace (s : State) (n : ℕ) :
    (s.sleep n).trace = s.trace ++ [Event.sleep n] := rfl

@[simp]
theorem call_running (s : State) (c : Call) : (s.call c).g_Running = s.g_Running := rfl

@[simp]
theorem cout_running (s : State) (o : Out) : (s.cout o).g_Running = s.g_Running := rfl

@[simp]
theorem cerr_running (s : State) (l : String) : (s.cerr l).g_Running = s.g_Running := rfl

@[simp]
theorem sleep_running (s : State) (n : ℕ) : (s.sleep n).g_Running = s.g_Running := rfl

@[simp]
theorem initial_trace : initial.trace = [] := rfl

@[simp]
theorem initial_running : initial.g_Running = true := rfl

theorem report_trace (W : World) (pre : String) (r : nvmlReturn_t) (s : State) :
    (report W pre r s).trace = s.trace ++ reportEvents W pre r := by
  simp [report, reportEvents]

theorem report_running (W : World) (pre : String) (r : nvmlReturn_t) (s : State) :
    (report W pre r s).g_Running = s.g_Running := rfl

theorem calls_append (a b : List Event) : calls (a ++ b) = calls a ++ calls b := by
  simp [calls]

theorem stdout_append (a b : List Event) : stdout (a ++ b) = stdout a ++ stdout b := by
  simp [stdout]

theorem stderr_append (a b : List Event) : stderr (a ++ b) = stderr a ++ stderr b := by
  simp [stderr]

@[simp]
theorem calls_nil : calls [] = [] := rfl

@[simp]
theorem stdout_nil : stdout [] = [] := rfl

@[simp]
theorem stderr_nil : stderr [] = [] := rfl

@[simp]
theorem calls_cons_call (c : Call) (t : List Event) :
    calls (Event.call c :: t) = c :: calls t := rfl

@[simp]
theorem calls_cons_out (o : Out) (t : List Event) : calls (Event.out o :: t) = calls t := rfl

@[simp]
theorem calls_cons_err (l : String) (t : List Event) :
    calls (Event.err l :: t) = calls t := rfl

@[simp]
theorem calls_cons_sleep (n : ℕ) (t : List Event) :
    calls (Event.sleep n :: t) = calls t := rfl

@[simp]
theorem stdout_cons_call (c : Call) (t : List Event) :
    stdout (Event.call c :: t) = stdout t := rfl

@[simp]
theorem stdout_cons_out (o : Out) (t : List Event) :
    stdout (Event.out o :: t) = o :: stdout t := rfl

@[simp]
theorem stdout_cons_err (l : String) (t : List Event) :
    stdout (Event.err l :: t) = stdout t := rfl

@[simp]
theorem stdout_cons_sleep (n : ℕ) (t : List Event) :
    stdout (Event.sleep n :: t) = stdout t := rfl

@[simp]
theorem stderr_cons_call (c : Call) (t : List Event) :
    stderr (Event.call c :: t) = stderr t := rfl

@[simp]
theorem stderr_cons_out (o : Out) (t : List Event) :
    stderr (Event.out o :: t) = stderr t := rfl

@[simp]
theorem stderr_cons_err (l : String) (t : List Event) :
    stderr (Event.err l :: t) = l :: stderr t := rfl

@[simp]
theorem stderr_cons_sleep (n : ℕ) (t : List Event) :
    stderr (Event.sleep n :: t) = stderr t := rfl

@[simp]
theorem calls_interrupts (W : World) (line k : ℕ) : calls (interrupts W line k) = [] := by
  unfold interrupts
  induction W.sigint line k with
  | zero => rfl
  | succ n ih => simp [List.replicate_succ, ih]

@[simp]
theorem stderr_interrupts (W : World) (line k : ℕ) :
    stderr (interrupts W line k) = [] := by
  unfold interrupts
  induction W.sigint line k with
  | zero => rfl
  | succ n ih => simp [List.replicate_succ, ih]

@[simp]
theorem stdout_interrupts (W : World) (line k : ℕ) :
    stdout (interrupts W line k) =
      List.replicate (W.sigint line k) (Out.text (interruptMessage SIGINT)) := by
  unfold interrupts
  induction W.sigint line k with
  | zero => rfl
  | succ n ih => simp [List.replicate_succ, ih]

/-! ## The loop body and the loop -/

theorem iterationEvents_eq (W : World) (d : nvmlDevice_t) (k : ℕ) :
    iterationEvents W d k =
      interrupts W 91 k ++ Event.call (Call.nvmlDeviceGetUtilizationRates d) ::
      (interrupts W 92 k ++
      ((if (W.nvmlDeviceGetUtilizationRates k d).1 ≠ NVML_SUCCESS then
        reportEvents W "Error: Unable to get utilization rates: "
          (W.nvmlDeviceGetUtilizationRates k d).1 else []) ++
      (interrupts W 100 k ++ Event.call (Call.nvmlDeviceGetMemoryInfo d) ::
      (interrupts W 101 k ++
      ((if (W.nvmlDeviceGetMemoryInfo k d).1 ≠ NVML_SUCCESS then
        reportEvents W "Error: Unable to get memory info: "
          (W.nvmlDeviceGetMemoryInfo k d).1 else []) ++
      (interrupts W 113 k ++ Event.out (sampleLine (W.nvmlDeviceGetUtilizationRates k d).2
          (W.nvmlDeviceGetMemoryInfo k d).2) ::
      (interrupts W 119 k ++ [Event.sleep SAMPLING_INTERVAL_MS]))))))) := by
  unfold iterationEvents iteration
  split_ifs <;> simp [deliver_trace, report_trace]

theorem iteration_trace (W : World) (d : nvmlDevice_t) (k : ℕ) (s : State) :
    (iteration W d k s).trace = s.trace ++ iterationEvents W d k := by
  rw [iterationEvents_eq]
  unfold iteration
  split_ifs <;> simp [deliver_trace, report_trace]

theorem iteration_running (W : World) (d : nvmlDevice_t) (k : ℕ) (s : State) :
    (iteration W d k s).g_Running = true ↔ s.g_Running = true ∧ quietIteration W k := by
  unfold iteration quietIteration
  split_ifs <;> simp [deliver_running, report_running] <;> tauto

theorem State.eq_of (s t : State) (h₁ : s.g_Running = t.g_Running) (h₂ : s.trace = t.trace) :
    s = t := by
  cases s; cases t; simp_all

theorem deliver_eq (W : World) (line k : ℕ) (s : State) :
    deliver W line k s =
      ⟨s.g_Running && decide (W.sigint line k = 0), s.trace ++ interrupts W line k⟩ :=
  State.eq_of _ _ (deliver_running W line k s) (deliver_trace W line k s)

theorem iteration_eq (W : World) (d : nvmlDevice_t) (k : ℕ) (s : State) :
    iteration W d k s =
      ⟨s.g_Running && decide (quietIteration W k), s.trace ++ iterationEvents W d k⟩ := by
  apply State.eq_of
  · rw [Bool.eq_iff_iff, iteration_running]; simp
  · exact iteration_trace W d k s

theorem inLoop_interrupts (W : World) (d : nvmlDevice_t) (line k : ℕ) :
    ∀ e ∈ interrupts W line k, e.inLoop d := by
  intro e he
  rw [interrupts, List.mem_replicate] at he
  rw [he.2]; trivial

theorem inLoop_iterationEvents (W : World) (d : nvmlDevice_t) (k : ℕ) :
    ∀ e ∈ iterationEvents W d k, e.inLoop d := by
  intro e he
  rw [iterationEvents_eq] at he
  simp only [List.mem_append, List.mem_cons, List.mem_singleton] at he
  have hi := inLoop_interrupts W d
  rcases he with h | h | h | h | h | h | h | h | h | h | h | h
  · exact hi _ _ _ h
  · rw [h]; rfl
  · exact hi _ _ _ h
  · split_ifs at h
    · simp [reportEvents] at h; rcases h with h | h <;> rw [h] <;> trivial
    · simp at h
  · exact hi _ _ _ h
  · rw [h]; rfl
  · exact hi _ _ _ h
  · split_ifs at h
    · simp [reportEvents] at h; rcases h with h | h <;> rw [h] <;> trivial
    · simp at h
  · exact hi _ _ _ h
  · rw [h]; trivial
  · exact hi _ _ _ h
  · rcases h with h | h
    · rw [h]; trivial
    · simp at h

theorem inLoop_loopEvents (W : World) (d : nvmlDevice_t) :
    ∀ (n k : ℕ), ∀ e ∈ loopEvents W d n k, e.inLoop d := by
  intro n
  induction n with
  | zero => intro k e he; simp [loopEvents] at he
  | succ n ih =>
    intro k e he
    simp only [loopEvents, List.mem_append] at he
    rcases he with he | he | he
    · exact inLoop_interrupts W d _ _ e he
    · exact inLoop_iterationEvents W d k e he
    · exact ih _ e he

/-- The loop either runs out of fuel or stops with the flag cleared after some number
`n` of complete rounds; what it appends does not depend on the events before it. -/
theorem pollingLoop_cases (W : World) (d : nvmlDevice_t) :
    ∀ (fuel k : ℕ) (b : Bool),
      (∀ t, pollingLoop W d fuel k ⟨b, t⟩ = none) ∨
      ∃ n, n < fuel ∧ ∀ t, pollingLoop W d fuel k ⟨b, t⟩ =
        some ⟨false, t ++ (loopEvents W d n k ++ interrupts W 87 (k + n))⟩ := by
  intro fuel
  induction fuel with
  | zero => intro k b; left; intro t; rfl
  | succ fuel ih =>
    intro k b
    by_cases hb : (b && decide (W.sigint 87 k = 0)) = true
    · rcases ih (k + 1) ((b && decide (W.sigint 87 k = 0)) && decide (quietIteration W k))
        with h | ⟨n, hn, h⟩
      · left
        intro t
        rw [pollingLoop, deliver_eq, if_pos hb, iteration_eq]
        exact h _
      · right
        refine ⟨n + 1, by omega, ?_⟩
        intro t
        rw [pollingLoop, deliver_eq, if_pos hb, iteration_eq, h]
        simp [loopEvents, Nat.add_assoc, Nat.add_comm 1 n]
    · right
      refine ⟨0, by omega, ?_⟩
      intro t
      rw [pollingLoop, deliver_eq, if_neg hb]
      simp at hb
      simp [loopEvents]
      intro h1 h2; exact absurd h2 (hb h1)

theorem pollingLoop_some (W : World) (d : nvmlDevice_t) (fuel k : ℕ) (s s' : State)
    (h : pollingLoop W d fuel k s = some s') :
    ∃ n, n < fuel ∧ s' = ⟨false, s.trace ++ (loopEvents W d n k ++ interrupts W 87 (k + n))⟩ := by
  rcases pollingLoop_cases W d fuel k s.g_Running with h0 | ⟨n, hn, h1⟩
  · rw [h0 s.trace] at h; exact absurd h (by simp)
  · rw [h1 s.trace] at h
    exact ⟨n, hn, (Option.some.inj h).symm⟩

theorem roundState_succ_front (W : World) (d : nvmlDevice_t) (k : ℕ) (s : State) (n : ℕ) :
    roundState W d k s (n + 1) =
      roundState W d (k + 1) (iteration W d k (deliver W 87 k s)) n := by
  induction n with
  | zero => simp [roundState]
  | succ n ih =>
    rw [roundState, ih]
    simp only [roundState]
    rw [show k + 1 + n = k + (n + 1) by omega, show k + 1 + (n + 1) = k + (n + 1 + 1) by omega]

theorem roundState_trace (W : World) (d : nvmlDevice_t) :
    ∀ (n k : ℕ) (s : State), (roundState W d k s n).trace =
      s.trace ++ (loopEvents W d n k ++ interrupts W 87 (k + n)) := by
  intro n
  induction n with
  | zero => intro k s; simp [roundState, loopEvents, deliver_trace]
  | succ n ih =>
    intro k s
    rw [roundState_succ_front, ih, iteration_trace, deliver_trace]
    simp [loopEvents, Nat.add_assoc, Nat.add_comm 1 n]

theorem pollingLoop_eq_some_iff (W : World) (d : nvmlDevice_t) :
    ∀ (fuel k : ℕ) (s s' : State), pollingLoop W d fuel k s = some s' ↔
      ∃ n, n < fuel ∧ (∀ i, i < n → (roundState W d k s i).g_Running = true) ∧
        (roundState W d k s n).g_Running = false ∧ s' = roundState W d k s n := by
  intro fuel
  induction fuel with
  | zero => intro k s s'; simp [pollingLoop]
  | succ fuel ih =>
    intro k s s'
    rw [pollingLoop]
    split_ifs with hb
    · rw [ih]
      constructor
      · rintro ⟨n, hn, hrun, hstop, rfl⟩
        refine ⟨n + 1, by omega, ?_, ?_, ?_⟩
        · intro i hi
          cases i with
          | zero => exact hb
          | succ i => rw [roundState_succ_front]; exact hrun i (by omega)
        · rw [roundState_succ_front]; exact hstop
        · rw [roundState_succ_front]
      · rintro ⟨n, hn, hrun, hstop, rfl⟩
        cases n with
        | zero => rw [roundState, hb] at hstop; exact absurd hstop (by simp)
        | succ n =>
          refine ⟨n, by omega, ?_, ?_, ?_⟩
          · intro i hi
            have := hrun (i + 1) (by omega)
            rwa [roundState_succ_front] at this
          · rwa [roundState_succ_front] at hstop
          · rw [roundState_succ_front]
    · constructor
      · intro h
        refine ⟨0, by omega, by intro i hi; omega, ?_, (Option.some.inj h).symm⟩
        simpa [roundState] using hb
      · rintro ⟨n, hn, hrun, hstop, rfl⟩
        cases n with
        | zero => rfl
        | succ n => exact absurd (hrun 0 (by omega)) hb

/-- An interrupt handled at the flag check of round `k + n` stops the loop within
`n + 1` rounds. -/
theorem pollingLoop_terminates (W : World) (d : nvmlDevice_t) :
    ∀ (n k : ℕ) (s : State), 0 < W.sigint 87 (k + n) → (pollingLoop W d (n + 1) k s).isSome := by
  intro n
  induction n with
  | zero =>
    intro k s h
    rw [pollingLoop, deliver_eq]
    have : W.sigint 87 k ≠ 0 := by simpa using Nat.pos_iff_ne_zero.mp h
    simp [this]
  | succ n ih =>
    intro k s h
    rw [pollingLoop]
    split_ifs
    · exact ih (k + 1) _ (by rwa [Nat.add_assoc, Nat.add_comm 1 n])
    · rfl

/-- A loop entered with the flag already cleared stops at its first check. -/
theorem pollingLoop_of_cleared (W : World) (d : nvmlDevice_t) (fuel k : ℕ) (s : State)
    (h : s.g_Running = false) :
    pollingLoop W d (fuel + 1) k s = some (deliver W 87 k s) := by
  rw [pollingLoop, deliver_running, h]
  simp

/-- More fuel does not change the outcome of a loop that has stopped. -/
theorem pollingLoop_mono (W : World) (d : nvmlDevice_t) :
    ∀ (fuel k : ℕ) (s s' : State) (m : ℕ), pollingLoop W d fuel k s = some s' →
      pollingLoop W d (fuel + m) k s = some s' := by
  intro fuel
  induction fuel with
  | zero => intro k s s' m h; exact absurd h (by simp [pollingLoop])
  | succ fuel ih =>
    intro k s s' m h
    rw [Nat.add_right_comm, pollingLoop]
    rw [pollingLoop] at h
    split_ifs at h ⊢
    · exact ih _ _ _ m h
    · exact h

/-! ## Name lookup, shutdown and the shape of a run -/

theorem lookupNameEvents_eq (W : World) (d : nvmlDevice_t) :
    lookupNameEvents W d =
      interrupts W 75 0 ++ Event.call (Call.nvmlDeviceGetName d) :: (interrupts W 76 0 ++
        (if (W.nvmlDeviceGetName d).1 ≠ NVML_SUCCESS then
          reportEvents W "Error: Unable to get device name: " (W.nvmlDeviceGetName d).1
        else [Event.out (Out.text ("Using GPU: " ++ (W.nvmlDeviceGetName d).2 ++ "\n"))])) := by
  unfold lookupNameEvents lookupName
  split_ifs <;> simp [deliver_trace, report_trace]

theorem lookupName_trace (W : World) (d : nvmlDevice_t) (s : State) :
    (lookupName W d s).trace = s.trace ++ lookupNameEvents W d := by
  rw [lookupNameEvents_eq]
  unfold lookupName
  split_ifs <;> simp [deliver_trace, report_trace]

theorem lookupName_running (W : World) (d : nvmlDevice_t) (s : State) :
    (lookupName W d s).g_Running =
      (s.g_Running && decide (W.sigint 75 0 = 0) && decide (W.sigint 76 0 = 0)) := by
  unfold lookupName
  split_ifs <;> simp [deliver_running, report_running]

theorem shutdownEvents_eq (W : World) :
    shutdownEvents W =
      interrupts W 123 0 ++ Event.call Call.nvmlShutdown :: (interrupts W 124 0 ++
        (if W.nvmlShutdown ≠ NVML_SUCCESS then
          reportEvents W "Error shutting down NVML: " W.nvmlShutdown
        else interrupts W 131 0 ++ [Event.out (Out.text "Done. Exiting normally.\n")])) := by
  unfold shutdownEvents shutdown
  split_ifs <;> simp [deliver_trace, report_trace]

theorem shutdown_trace (W : World) (s : State) :
    (shutdown W s).final.trace = s.trace ++ shutdownEvents W := by
  rw [shutdownEvents_eq]
  unfold shutdown
  split_ifs <;> simp [deliver_trace, report_trace]

theorem shutdown_exit (W : World) (s : State) :
    (shutdown W s).exit = if W.nvmlShutdown = NVML_SUCCESS then 0 else 1 := by
  unfold shutdown
  split_ifs <;> simp_all

theorem handleAcquired_trace (W : World) :
    (handleAcquired W).trace =
      interrupts W 43 0 ++ Event.call Call.nvmlInit :: (interrupts W 44 0 ++
        (interrupts W 53 0 ++ Event.call Call.nvmlDeviceGetCount :: (interrupts W 54 0 ++
          (interrupts W 64 0 ++ Event.call (Call.nvmlDeviceGetHandleByIndex 0) ::
            interrupts W 65 0)))) := by
  simp [handleAcquired, deliver_trace]

theorem main_of_startupOk (W : World) (fuel : ℕ) (h : startupOk W) :
    main W fuel =
      (pollingLoop W (W.nvmlDeviceGetHandleByIndex 0).2 fuel 0
        (lookupName W (W.nvmlDeviceGetHandleByIndex 0).2 (handleAcquired W))).map
        (shutdown W) := by
  obtain ⟨h1, h2, h3, h4⟩ := h
  have h3' : W.nvmlDeviceGetCount.2 ≠ 0 := Nat.pos_iff_ne_zero.mp h3
  simp [main, h1, h2, h3', h4, handleAcquired]

/-- Every run in which an interrupt is handled at the flag check of some round `n`
terminates, with `n + 1` units of fuel. -/
theorem main_terminates (W : World) (n : ℕ) (h : 0 < W.sigint 87 n) :
    (main W (n + 1)).isSome := by
  by_cases hs : startupOk W
  · rw [main_of_startupOk W _ hs, Option.isSome_map']
    exact pollingLoop_terminates W _ n 0 _ (by simpa using h)
  · unfold startupOk at hs
    unfold main
    split_ifs with h1 h2 h3
    · rfl
    · rfl
    · rfl
    · exfalso
      apply hs
      refine ⟨not_not.mp h1, ?_, ?_, not_not.mp h3⟩
      · exact not_not.mp (fun hc => h2 (Or.inl hc))
      · exact Nat.pos_of_ne_zero (fun hc => h2 (Or.inr hc))

/-- Shape of a terminating run that got past the start-up: the start-up events, the
name lookup, `n` complete rounds of the loop, the flag check that finds the flag
cleared, and the shutdown sequence. -/
theorem main_run (W : World) (fuel : ℕ) (r : Result) (hs : startupOk W)
    (h : main W fuel = some r) :
    ∃ n, n < fuel ∧
      r.final.trace = (handleAcquired W).trace ++
        (lookupNameEvents W (W.nvmlDeviceGetHandleByIndex 0).2 ++
          (loopEvents W (W.nvmlDeviceGetHandleByIndex 0).2 n 0 ++
            (interrupts W 87 n ++ shutdownEvents W))) ∧
      r.exit = if W.nvmlShutdown = NVML_SUCCESS then 0 else 1 := by
  rw [main_of_startupOk W fuel hs] at h
  rcases Option.map_eq_some'.mp h with ⟨s', hs', hr⟩
  obtain ⟨n, hn, rfl⟩ := pollingLoop_some _ _ _ _ _ _ hs'
  refine ⟨n, hn, ?_, ?_⟩
  · rw [← hr, shutdown_trace, lookupName_trace]
    simp
  · rw [← hr, shutdown_exit]

theorem calls_shutdownEvents (W : World) :
    calls (shutdownEvents W) = Call.nvmlShutdown ::
      (if W.nvmlShutdown ≠ NVML_SUCCESS then [Call.nvmlErrorString W.nvmlShutdown] else []) := by
  rw [shutdownEvents_eq]
  split_ifs <;> simp [calls_append, reportEvents]

theorem sublist_iterationEvents (W : World) (d : nvmlDevice_t) (k : ℕ) :
    List.Sublist
      [Event.call (Call.nvmlDeviceGetUtilizationRates d),
       Event.call (Call.nvmlDeviceGetMemoryInfo d),
       Event.out (sampleLine (W.nvmlDeviceGetUtilizationRates k d).2
         (W.nvmlDeviceGetMemoryInfo k d).2)]
      (iterationEvents W d k) := by
  rw [iterationEvents_eq]
  apply List.Sublist.trans _ (List.sublist_append_right _ _)
  apply List.Sublist.cons₂
  apply List.Sublist.trans _ (List.sublist_append_right _ _)
  apply List.Sublist.trans _ (List.sublist_append_right _ _)
  apply List.Sublist.trans _ (List.sublist_append_right _ _)
  apply List.Sublist.cons₂
  apply List.Sublist.trans _ (List.sublist_append_right _ _)
  apply List.Sublist.trans _ (List.sublist_append_right _ _)
  apply List.Sublist.trans _ (List.sublist_append_right _ _)
  apply List.Sublist.cons₂
  exact List.nil_sublist _

/-! ## Start-up failures -/

theorem main_of_init_failure (W : World) (fuel : ℕ) (h : W.nvmlInit ≠ NVML_SUCCESS) :
    main W fuel = some ⟨1, report W "Error initializing NVML: " W.nvmlInit
      (deliver W 44 0 ((deliver W 43 0 initial).call Call.nvmlInit))⟩ := by
  simp only [main, if_pos h]

/-- C2: when `nvmlInit` fails, whatever the code, `main` returns 1 and the only line on
`std::cerr` is the diagnostic that carries the text `nvmlErrorString` gives for exactly
that code (looked up by the only library call made after `nvmlInit`). -/
theorem main_init_failure (W : World) (fuel : ℕ) (h : W.nvmlInit ≠ NVML_SUCCESS) :
    ∃ r, main W fuel = some r ∧ r.exit = 1 ∧
      stderr r.final.trace =
        ["Error initializing NVML: " ++ W.nvmlErrorString W.nvmlInit ++ "\n"] ∧
      calls r.final.trace = [Call.nvmlInit, Call.nvmlErrorString W.nvmlInit] := by
  refine ⟨_, main_of_init_failure W fuel h, rfl, ?_, ?_⟩
  · simp [report_trace, deliver_trace, stderr_append, reportEvents]
  · simp [report_trace, deliver_trace, calls_append, reportEvents]

theorem main_of_count_failure (W : World) (fuel : ℕ) (h1 : W.nvmlInit = NVML_SUCCESS)
    (h2 : W.nvmlDeviceGetCount.1 ≠ NVML_SUCCESS ∨ W.nvmlDeviceGetCount.2 = 0) :
    main W fuel = some ⟨1, (report W "Error: No NVIDIA devices found or NVML error: "
      W.nvmlDeviceGetCount.1 (deliver W 54 0 ((deliver W 53 0 (deliver W 44 0
        ((deliver W 43 0 initial).call Call.nvmlInit))).call Call.nvmlDeviceGetCount))).call
          Call.nvmlShutdown⟩ := by
  simp only [main, h1, ne_eq, not_true_eq_false, if_false, if_pos h2]

theorem main_of_handle_failure (W : World) (fuel : ℕ) (h1 : W.nvmlInit = NVML_SUCCESS)
    (h2 : W.nvmlDeviceGetCount.1 = NVML_SUCCESS) (h3 : 0 < W.nvmlDeviceGetCount.2)
    (h4 : (W.nvmlDeviceGetHandleByIndex 0).1 ≠ NVML_SUCCESS) :
    main W fuel = some ⟨1, (report W "Error: Unable to get handle for device 0: "
      (W.nvmlDeviceGetHandleByIndex 0).1 (handleAcquired W)).call Call.nvmlShutdown⟩ := by
  have h3' : W.nvmlDeviceGetCount.2 ≠ 0 := Nat.pos_iff_ne_zero.mp h3
  simp [main, h1, h2, h3', h4, handleAcquired]

/-- Witness of C2: a library whose `nvmlInit` returns code 3. -/
theorem main_init_failure_witness :
    ∃ r, main { sampleWorld with nvmlInit := 3 } 0 = some r ∧ r.exit = 1 ∧
      stderr r.final.trace = ["Error initializing NVML: Unknown Error\n"] := by
  obtain ⟨r, h, he, hd, -⟩ := main_init_failure { sampleWorld with nvmlInit := 3 } 0 (by decide)
  exact ⟨r, h, he, hd⟩

/-- C3: when `nvmlInit` succeeds and `nvmlDeviceGetCount` reports 0 devices (with any
return code), `main` returns 1 after exactly four library calls: init, the count query,
the error lookup and the shutdown.  No handle, name, utilization or memory call is
made. -/
theorem main_zero_devices (W : World) (fuel : ℕ) (hinit : W.nvmlInit = NVML_SUCCESS)
    (hcount : W.nvmlDeviceGetCount.2 = 0) :
    ∃ r, main W fuel = some r ∧ r.exit = 1 ∧
      calls r.final.trace = [Call.nvmlInit, Call.nvmlDeviceGetCount,
        Call.nvmlErrorString W.nvmlDeviceGetCount.1, Call.nvmlShutdown] ∧
      (∀ i, Call.nvmlDeviceGetHandleByIndex i ∉ calls r.final.trace) ∧
      (∀ d, Call.nvmlDeviceGetName d ∉ calls r.final.trace) ∧
      (∀ c ∈ calls r.final.trace, c.isQuery = false) := by
  have hc : calls ((report W "Error: No NVIDIA devices found or NVML error: "
      W.nvmlDeviceGetCount.1 (deliver W 54 0 ((deliver W 53 0 (deliver W 44 0
        ((deliver W 43 0 initial).call Call.nvmlInit))).call Call.nvmlDeviceGetCount))).call
          Call.nvmlShutdown).trace = [Call.nvmlInit, Call.nvmlDeviceGetCount,
        Call.nvmlErrorString W.nvmlDeviceGetCount.1, Call.nvmlShutdown] := by
    simp [report_trace, deliver_trace, calls_append, reportEvents]
  refine ⟨_, main_of_count_failure W fuel hinit (Or.inr hcount), rfl, hc, ?_, ?_, ?_⟩
  · intro i; rw [hc]; simp
  · intro d; rw [hc]; simp
  · intro c; rw [hc]; simp
    rintro (h | h | h | h) <;> rw [h] <;> rfl

/-- Witness of C3: the scripted library reports zero devices. -/
theorem main_zero_devices_witness :
    ∃ r, main { sampleWorld with nvmlDeviceGetCount := (NVML_SUCCESS, 0) } 0 = some r ∧
      r.exit = 1 ∧ ∀ i, Call.nvmlDeviceGetHandleByIndex i ∉ calls r.final.trace := by
  obtain ⟨r, h, he, -, hh, -⟩ :=
    main_zero_devices { sampleWorld with nvmlDeviceGetCount := (NVML_SUCCESS, 0) } 0 rfl rfl
  exact ⟨r, h, he, hh⟩

/-! ## One iteration of the loop -/

/-- C4: an iteration of the loop body, from any state and for any outcome of its two
queries, calls the utilization query once and the memory query once and writes exactly
one sample line to `std::cout`.  Each failing query adds one diagnostic to `std::cerr`.
The flag after the iteration depends on the interrupts alone, and the loop goes back
to its flag check: a failing query never ends it. -/
theorem iteration_survives_query_failure (W : World) (d : nvmlDevice_t) (k : ℕ) (s : State) :
    ∃ new, (iteration W d k s).trace = s.trace ++ new ∧
      (calls new).count (Call.nvmlDeviceGetUtilizationRates d) = 1 ∧
      (calls new).count (Call.nvmlDeviceGetMemoryInfo d) = 1 ∧
      (stdout new).filter Out.isSample =
        [sampleLine (W.nvmlDeviceGetUtilizationRates k d).2 (W.nvmlDeviceGetMemoryInfo k d).2] ∧
      stderr new =
        (if (W.nvmlDeviceGetUtilizationRates k d).1 ≠ NVML_SUCCESS then
          ["Error: Unable to get utilization rates: " ++
            W.nvmlErrorString (W.nvmlDeviceGetUtilizationRates k d).1 ++ "\n"] else []) ++
        (if (W.nvmlDeviceGetMemoryInfo k d).1 ≠ NVML_SUCCESS then
          ["Error: Unable to get memory info: " ++
            W.nvmlErrorString (W.nvmlDeviceGetMemoryInfo k d).1 ++ "\n"] else []) ∧
      ((iteration W d k s).g_Running = true ↔ s.g_Running = true ∧ quietIteration W k) ∧
      (∀ fuel, pollingLoop W d (fuel + 1) k s =
        if (deliver W 87 k s).g_Running then
          pollingLoop W d fuel (k + 1) (iteration W d k (deliver W 87 k s))
        else some (deliver W 87 k s)) := by
  refine ⟨iterationEvents W d k, iteration_trace W d k s, ?_, ?_, ?_, ?_,
    iteration_running W d k s, fun _ => rfl⟩
  · rw [iterationEvents_eq]
    split_ifs <;> simp [calls_append, reportEvents]
  · rw [iterationEvents_eq]
    split_ifs <;> simp [calls_append, reportEvents]
  · rw [iterationEvents_eq]
    split_ifs <;> simp [stdout_append, reportEvents, Out.isSample, sampleLine]
  · rw [iterationEvents_eq]
    split_ifs <;> simp [stderr_append, reportEvents]

/-! ## Exit status -/

/-- C1: in every terminating run the exit status is 0 exactly when `nvmlInit` succeeds,
`nvmlDeviceGetCount` succeeds with a positive count, `nvmlDeviceGetHandleByIndex(0)`
succeeds and `nvmlShutdown` succeeds; otherwise it is 1.  Neither the name lookup nor
any utilization or memory query occurs in the condition. -/
theorem main_exit_code (W : World) (fuel : ℕ) (r : Result) (h : main W fuel = some r) :
    (r.exit = 0 ↔ W.nvmlInit = NVML_SUCCESS ∧ W.nvmlDeviceGetCount.1 = NVML_SUCCESS ∧
        0 < W.nvmlDeviceGetCount.2 ∧ (W.nvmlDeviceGetHandleByIndex 0).1 = NVML_SUCCESS ∧
        W.nvmlShutdown = NVML_SUCCESS) ∧
      (r.exit = 0 ∨ r.exit = 1) := by
  by_cases hs : startupOk W
  · obtain ⟨n, -, -, hexit⟩ := main_run W fuel r hs h
    obtain ⟨h1, h2, h3, h4⟩ := hs
    rw [hexit]
    split_ifs with h5
    · simp [h1, h2, h3, h4, h5]
    · simp [h5]
  · have hexit : r.exit = 1 := by
      unfold startupOk at hs
      unfold main at h
      split_ifs at h with h1 h2 h3
      · rw [← Option.some.inj h]
      · rw [← Option.some.inj h]
      · rw [← Option.some.inj h]
      · exfalso
        apply hs
        refine ⟨not_not.mp h1, ?_, ?_, not_not.mp h3⟩
        · exact not_not.mp (fun hc => h2 (Or.inl hc))
        · exact Nat.pos_of_ne_zero (fun hc => h2 (Or.inr hc))
    rw [hexit]
    refine ⟨⟨fun hc => absurd hc (by decide), fun ⟨h1, h2, h3, h4, _⟩ => absurd ⟨h1, h2, h3, h4⟩ hs⟩,
      Or.inr rfl⟩

/-- Witness of C1 on the scripted library `sampleWorld`: the run ends and exits with 0. -/
theorem main_exit_code_witness :
    ∃ r, main sampleWorld 2 = some r ∧ r.exit = 0 :=
  ⟨_, rfl, (main_exit_code sampleWorld 2 _ rfl).1.mpr ⟨rfl, rfl, by decide, rfl, rfl⟩⟩

/-! ## The stop flag -/

/-- C5: a terminating run that got past the start-up consists of some number `n` of
rounds of the loop followed by the flag check that finds `g_Running` cleared.  The
flag is read once per round, at the top: the first `n` checks find it set, the next one
finds it cleared.  Every iteration that starts appends its whole block of events
(utilization query, memory query, sample line, in this order) from any state and under
any interrupt schedule.  After the last round the only library calls are
`nvmlShutdown`, first, and the error lookup if the shutdown fails; no query is made. -/
theorem stop_flag_checked_at_loop_top (W : World) (fuel : ℕ) (r : Result)
    (hs : startupOk W) (h : main W fuel = some r) :
    ∃ n, n < fuel ∧
      (∀ i, i < n → (roundState W (selectedDevice W) 0 (loopEntry W) i).g_Running = true) ∧
      (roundState W (selectedDevice W) 0 (loopEntry W) n).g_Running = false ∧
      r = shutdown W (roundState W (selectedDevice W) 0 (loopEntry W) n) ∧
      (roundState W (selectedDevice W) 0 (loopEntry W) n).trace =
        (loopEntry W).trace ++ (loopEvents W (selectedDevice W) n 0 ++ interrupts W 87 n) ∧
      (∀ (k : ℕ) (s : State), ∃ new,
        (iteration W (selectedDevice W) k s).trace = s.trace ++ new ∧
        new = iterationEvents W (selectedDevice W) k ∧
        List.Sublist
          [Event.call (Call.nvmlDeviceGetUtilizationRates (selectedDevice W)),
           Event.call (Call.nvmlDeviceGetMemoryInfo (selectedDevice W)),
           Event.out (sampleLine (W.nvmlDeviceGetUtilizationRates k (selectedDevice W)).2
             (W.nvmlDeviceGetMemoryInfo k (selectedDevice W)).2)] new) ∧
      r.final.trace = (loopEntry W).trace ++
        (loopEvents W (selectedDevice W) n 0 ++ (interrupts W 87 n ++ shutdownEvents W)) ∧
      calls (interrupts W 87 n ++ shutdownEvents W) = Call.nvmlShutdown ::
        (if W.nvmlShutdown ≠ NVML_SUCCESS then [Call.nvmlErrorString W.nvmlShutdown] else []) := by
  unfold loopEntry selectedDevice
  rw [main_of_startupOk W fuel hs] at h
  rcases Option.map_eq_some'.mp h with ⟨s', hs', hr⟩
  obtain ⟨n, hn, hrun, hstop, rfl⟩ := (pollingLoop_eq_some_iff W _ _ _ _ _).mp hs'
  refine ⟨n, hn, hrun, hstop, hr.symm, ?_, ?_, ?_, ?_⟩
  · simpa using roundState_trace W _ n 0 _
  · intro k s
    exact ⟨_, iteration_trace W _ k s, rfl, sublist_iterationEvents W _ k⟩
  · rw [← hr, shutdown_trace, roundState_trace]
    simp
  · rw [calls_append, calls_interrupts, calls_shutdownEvents]
    rfl

/-- Witness of C5: on `sampleWorld` the loop is left at its second flag check. -/
theorem stop_flag_checked_at_loop_top_witness :
    startupOk sampleWorld ∧ ∃ r, main sampleWorld 2 = some r ∧ ∃ n, n < 2 ∧
      r = shutdown sampleWorld
        (roundState sampleWorld (selectedDevice sampleWorld) 0 (loopEntry sampleWorld) n) :=
  ⟨by decide, _, rfl,
    (stop_flag_checked_at_loop_top sampleWorld 2 _ (by decide) rfl).imp
      fun _ hn => ⟨hn.1, hn.2.2.2.1⟩⟩

/-- C7 as the code has it: for every signal number the handler clears `g_Running` and
appends exactly one message, which names the signal number, to `std::cout`; it writes
nothing to `std::cerr`, makes no library call and leaves the earlier events alone. -/
theorem signalHandler_effect (signum : ℤ) (s : State) :
    (signalHandler signum s).g_Running = false ∧
      (signalHandler signum s).trace =
        s.trace ++ [Event.out (Out.text
          ("\nInterrupt signal (" ++ toString signum ++ ") received. Stopping...\n"))] ∧
      stdout (signalHandler signum s).trace =
        stdout s.trace ++ [Out.text
          ("\nInterrupt signal (" ++ toString signum ++ ") received. Stopping...\n")] ∧
      stderr (signalHandler signum s).trace = stderr s.trace ∧
      calls (signalHandler signum s).trace = calls s.trace := by
  refine ⟨rfl, rfl, ?_, ?_, ?_⟩
  · simp [signalHandler, stdout_append, interruptMessage]
  · simp [signalHandler, stderr_append]
  · simp [signalHandler, calls_append]

/-- C7 fails as stated: run from the initial state, the handler of `SIGINT` leaves a
line of text on `std::cout`, which was empty before. -/
theorem signalHandler_writes_stdout :
    stdout initial.trace = [] ∧
      stdout (signalHandler SIGINT initial).trace =
        [Out.text "\nInterrupt signal (2) received. Stopping...\n"] := by
  decide

/-! ## Life cycle of the library context -/

theorem calls_of_inLoop (d : nvmlDevice_t) (l : List Event) (h : ∀ e ∈ l, e.inLoop d) :
    ∀ c ∈ calls l, c = Call.nvmlDeviceGetUtilizationRates d ∨
      c = Call.nvmlDeviceGetMemoryInfo d ∨ c.isErrorString = true := by
  induction l with
  | nil => simp
  | cons e l ih =>
    have hl := ih (fun e he => h e (List.mem_cons_of_mem _ he))
    have he := h e (List.mem_cons_self _ _)
    cases e with
    | call c =>
      intro c' hc'
      rw [calls_cons_call, List.mem_cons] at hc'
      rcases hc' with rfl | hc'
      · cases c' <;> simp_all [Event.inLoop, Call.isErrorString]
      · exact hl c' hc'
    | out o => simpa using hl
    | err o => simpa using hl
    | sleep o => simpa using hl

theorem calls_lookupNameEvents (W : World) (d : nvmlDevice_t) :
    calls (lookupNameEvents W d) = Call.nvmlDeviceGetName d ::
      (if (W.nvmlDeviceGetName d).1 ≠ NVML_SUCCESS then
        [Call.nvmlErrorString (W.nvmlDeviceGetName d).1] else []) := by
  rw [lookupNameEvents_eq]
  split_ifs <;> simp [calls_append, reportEvents]

theorem calls_handleAcquired (W : World) :
    calls (handleAcquired W).trace =
      [Call.nvmlInit, Call.nvmlDeviceGetCount, Call.nvmlDeviceGetHandleByIndex 0] := by
  simp [handleAcquired_trace, calls_append]

/-- Library calls of a terminating run that got past the start-up. -/
theorem calls_main_run (W : World) (fuel : ℕ) (r : Result) (hs : startupOk W)
    (h : main W fuel = some r) :
    ∃ mid, (∀ c ∈ mid, c ≠ Call.nvmlInit ∧ c ≠ Call.nvmlShutdown) ∧
      calls r.final.trace = Call.nvmlInit :: (mid ++ Call.nvmlShutdown ::
        (if W.nvmlShutdown ≠ NVML_SUCCESS then [Call.nvmlErrorString W.nvmlShutdown] else [])) := by
  obtain ⟨n, -, ht, -⟩ := main_run W fuel r hs h
  refine ⟨[Call.nvmlDeviceGetCount, Call.nvmlDeviceGetHandleByIndex 0] ++
    (calls (lookupNameEvents W (W.nvmlDeviceGetHandleByIndex 0).2) ++
      calls (loopEvents W (W.nvmlDeviceGetHandleByIndex 0).2 n 0)), ?_, ?_⟩
  · intro c hc
    simp only [List.mem_append, List.mem_cons, List.mem_singleton, List.not_mem_nil,
      or_false] at hc
    rcases hc with (rfl | rfl) | hc | hc
    · simp
    · simp
    · rw [calls_lookupNameEvents] at hc
      split_ifs at hc <;> simp at hc
      · rcases hc with rfl | rfl <;> simp
      · rw [hc]; simp
    · rcases calls_of_inLoop _ _ (inLoop_loopEvents W _ n 0) c hc with rfl | rfl | hc
      · simp
      · simp
      · cases c <;> simp_all [Call.isErrorString]
  · rw [ht]
    simp [calls_append, calls_handleAcquired, calls_shutdownEvents]

/-- C9 as the code has it: in every terminating run `nvmlInit` is the first library
call and is made exactly once.  If it fails, `nvmlShutdown` is never called.  If it
succeeds, `nvmlShutdown` is called exactly once, on every exit path, and nothing that
uses the library context follows it: it is the last library call, except that after a
failing shutdown at the end of the loop the program still looks up the error text of
that code with `nvmlErrorString`. -/
theorem library_context_lifecycle (W : World) (fuel : ℕ) (r : Result)
    (h : main W fuel = some r) :
    (calls r.final.trace).head? = some Call.nvmlInit ∧
      (calls r.final.trace).count Call.nvmlInit = 1 ∧
      (W.nvmlInit ≠ NVML_SUCCESS → Call.nvmlShutdown ∉ calls r.final.trace) ∧
      (W.nvmlInit = NVML_SUCCESS → ∃ before, Call.nvmlShutdown ∉ before ∧
        calls r.final.trace = before ++ Call.nvmlShutdown ::
          (if startupOk W ∧ W.nvmlShutdown ≠ NVML_SUCCESS then
            [Call.nvmlErrorString W.nvmlShutdown] else [])) := by
  by_cases hs : startupOk W
  · obtain ⟨mid, hmid, hc⟩ := calls_main_run W fuel r hs h
    have h0 : List.count Call.nvmlInit mid = 0 :=
      List.count_eq_zero.mpr (fun hm => (hmid _ hm).1 rfl)
    refine ⟨by rw [hc]; rfl, ?_, fun hi => absurd hs.1 hi, fun _ => ⟨Call.nvmlInit :: mid, ?_, ?_⟩⟩
    · rw [hc]
      split_ifs <;> simp [List.count_cons, List.count_append, h0]
    · simp only [List.mem_cons, not_or]
      exact ⟨by simp, fun hm => (hmid _ hm).2 rfl⟩
    · rw [hc]
      by_cases h5 : W.nvmlShutdown ≠ NVML_SUCCESS
      · simp [hs, h5]
      · simp [h5]
  · by_cases h1 : W.nvmlInit = NVML_SUCCESS
    · have hc : calls r.final.trace = [Call.nvmlInit, Call.nvmlDeviceGetCount] ++
          ((if W.nvmlDeviceGetCount.1 = NVML_SUCCESS ∧ 0 < W.nvmlDeviceGetCount.2 then
            [Call.nvmlDeviceGetHandleByIndex 0, Call.nvmlErrorString (W.nvmlDeviceGetHandleByIndex 0).1]
            else [Call.nvmlErrorString W.nvmlDeviceGetCount.1])) ++ [Call.nvmlShutdown] := by
        by_cases h2 : W.nvmlDeviceGetCount.1 = NVML_SUCCESS ∧ 0 < W.nvmlDeviceGetCount.2
        · have h4 : (W.nvmlDeviceGetHandleByIndex 0).1 ≠ NVML_SUCCESS :=
            fun h4 => hs ⟨h1, h2.1, h2.2, h4⟩
          rw [main_of_handle_failure W fuel h1 h2.1 h2.2 h4] at h
          rw [← Option.some.inj h, if_pos h2]
          simp [report_trace, calls_append, calls_handleAcquired, reportEvents]
        · have h2' : W.nvmlDeviceGetCount.1 ≠ NVML_SUCCESS ∨ W.nvmlDeviceGetCount.2 = 0 := by
            by_contra hc
            push_neg at hc
            exact h2 ⟨hc.1, Nat.pos_of_ne_zero hc.2⟩
          rw [main_of_count_failure W fuel h1 h2'] at h
          rw [← Option.some.inj h, if_neg h2]
          simp [report_trace, deliver_trace, calls_append, reportEvents]
      refine ⟨by rw [hc]; rfl, ?_, fun hi => absurd h1 hi, fun _ =>
        ⟨[Call.nvmlInit, Call.nvmlDeviceGetCount] ++
          (if W.nvmlDeviceGetCount.1 = NVML_SUCCESS ∧ 0 < W.nvmlDeviceGetCount.2 then
            [Call.nvmlDeviceGetHandleByIndex 0,
              Call.nvmlErrorString (W.nvmlDeviceGetHandleByIndex 0).1]
            else [Call.nvmlErrorString W.nvmlDeviceGetCount.1]), ?_, ?_⟩⟩
      · rw [hc]; split_ifs <;> simp [List.count_cons]
      · split_ifs <;> simp
      · rw [hc]
        simp [hs]
    · rw [main_of_init_failure W fuel h1] at h
      have hc : calls r.final.trace = [Call.nvmlInit, Call.nvmlErrorString W.nvmlInit] := by
        rw [← Option.some.inj h]
        simp [report_trace, deliver_trace, calls_append, reportEvents]
      refine ⟨by rw [hc]; rfl, ?_, fun _ => ?_, fun hi => absurd hi h1⟩
      · rw [hc]; simp [List.count_cons]
      · rw [hc]; simp

/-- Witness of C9 on `sampleWorld`. -/
theorem library_context_lifecycle_witness :
    ∃ r, main sampleWorld 2 = some r ∧ (calls r.final.trace).count Call.nvmlInit = 1 ∧
      (calls r.final.trace).head? = some Call.nvmlInit :=
  ⟨_, rfl, (library_context_lifecycle sampleWorld 2 _ rfl).2.1,
    (library_context_lifecycle sampleWorld 2 _ rfl).1⟩

/-- C9 fails as stated: when the shutdown after the loop returns an error, the last
library call of the run is `nvmlErrorString`, made after `nvmlShutdown`. -/
theorem shutdown_not_last_call :
    ∃ r, main { sampleWorld with nvmlShutdown := 1 } 2 = some r ∧
      (calls r.final.trace).getLast? = some (Call.nvmlErrorString 1) ∧
      (calls r.final.trace).getLast? ≠ some Call.nvmlShutdown :=
  ⟨_, rfl, by decide, by decide⟩

/-! ## The name lookup -/

theorem pollingLoop_congr_name (W : World) (f : nvmlDevice_t → nvmlReturn_t × String)
    (d : nvmlDevice_t) :
    ∀ (fuel k : ℕ) (s : State),
      pollingLoop { W with nvmlDeviceGetName := f } d fuel k s = pollingLoop W d fuel k s := by
  intro fuel
  induction fuel with
  | zero => intro k s; rfl
  | succ fuel ih =>
    intro k s
    rw [pollingLoop, pollingLoop, ih]
    rfl

theorem interrupts_congr_name (W : World) (f : nvmlDevice_t → nvmlReturn_t × String)
    (line k : ℕ) : interrupts { W with nvmlDeviceGetName := f } line k = interrupts W line k :=
  rfl

theorem usingGpu_ne_interrupt (nm : String) :
    "Using GPU: " ++ nm ++ "\n" ≠ interruptMessage SIGINT := by
  intro h
  have := congrArg String.data h
  simp [interruptMessage] at this

theorem usingGpu_ne_done (nm : String) :
    "Using GPU: " ++ nm ++ "\n" ≠ "Done. Exiting normally.\n" := by
  intro h
  have := congrArg String.data h
  simp at this

theorem stdout_interrupts_no_usingGpu (W : World) (line k : ℕ) (nm : String) :
    Out.text ("Using GPU: " ++ nm ++ "\n") ∉ stdout (interrupts W line k) := by
  rw [stdout_interrupts]
  intro h
  have := (List.mem_replicate.mp h).2
  exact usingGpu_ne_interrupt nm (Out.text.inj this)

theorem stdout_iterationEvents_no_usingGpu (W : World) (d : nvmlDevice_t) (k : ℕ) (nm : String) :
    Out.text ("Using GPU: " ++ nm ++ "\n") ∉ stdout (iterationEvents W d k) := by
  have hi := fun line => stdout_interrupts_no_usingGpu W line k nm
  rw [iterationEvents_eq]
  split_ifs <;>
    simp [stdout_append, reportEvents, sampleLine, List.mem_append, hi, -stdout_interrupts]

theorem stdout_loopEvents_no_usingGpu (W : World) (d : nvmlDevice_t) (nm : String) :
    ∀ n k, Out.text ("Using GPU: " ++ nm ++ "\n") ∉ stdout (loopEvents W d n k) := by
  intro n
  induction n with
  | zero => intro k; simp [loopEvents]
  | succ n ih =>
    intro k
    simp only [loopEvents, stdout_append, List.mem_append, not_or]
    exact ⟨stdout_interrupts_no_usingGpu W _ _ nm, stdout_iterationEvents_no_usingGpu W d k nm,
      ih _⟩

theorem stdout_shutdownEvents_no_usingGpu (W : World) (nm : String) :
    Out.text ("Using GPU: " ++ nm ++ "\n") ∉ stdout (shutdownEvents W) := by
  have hi := fun line => stdout_interrupts_no_usingGpu W line 0 nm
  rw [shutdownEvents_eq]
  split_ifs <;>
    simp [stdout_append, reportEvents, List.mem_append, hi, usingGpu_ne_done,
      -stdout_interrupts]

/-- A terminating run whose name lookup fails, against the run of the library that
differs only in that the name lookup succeeds: same exit status, same events before
and after the name report. -/
theorem name_failure_terminating_run (W : World) (name : String) (fuel : ℕ) (r : Result)
    (hs : startupOk W)
    (hname : (W.nvmlDeviceGetName (selectedDevice W)).1 ≠ NVML_SUCCESS)
    (h : main W fuel = some r) :
    main W fuel = (pollingLoop W (selectedDevice W) fuel 0 (loopEntry W)).map (shutdown W) ∧
    ("Error: Unable to get device name: " ++
      W.nvmlErrorString (W.nvmlDeviceGetName (selectedDevice W)).1 ++ "\n") ∈
        stderr r.final.trace ∧
    (∀ nm, Out.text ("Using GPU: " ++ nm ++ "\n") ∉ stdout r.final.trace) ∧
    ∃ r' before after,
      main { W with nvmlDeviceGetName := fun _ => (NVML_SUCCESS, name) } fuel = some r' ∧
      r'.exit = r.exit ∧
      r.final.trace = before ++ (reportEvents W "Error: Unable to get device name: "
        (W.nvmlDeviceGetName (selectedDevice W)).1 ++ after) ∧
      r'.final.trace = before ++ (Event.out (Out.text ("Using GPU: " ++ name ++ "\n")) :: after) ∧
      (calls r'.final.trace).filter Call.isQueryOrShutdown =
        (calls r.final.trace).filter Call.isQueryOrShutdown := by
  have hmain := main_of_startupOk W fuel hs
  have hmain' := main_of_startupOk { W with nvmlDeviceGetName := fun _ => (NVML_SUCCESS, name) }
    fuel hs
  rw [pollingLoop_congr_name] at hmain'
  unfold loopEntry selectedDevice at *
  refine ⟨hmain, ?_⟩
  rw [hmain] at h
  rcases Option.map_eq_some'.mp h with ⟨s', hs', hr⟩
  have hrun : (lookupName { W with nvmlDeviceGetName := fun _ => (NVML_SUCCESS, name) }
      (W.nvmlDeviceGetHandleByIndex 0).2 (handleAcquired W)).g_Running =
      (lookupName W (W.nvmlDeviceGetHandleByIndex 0).2 (handleAcquired W)).g_Running := by
    rw [lookupName_running, lookupName_running]
  have htr := lookupName_trace W (W.nvmlDeviceGetHandleByIndex 0).2 (handleAcquired W)
  have htr' := lookupName_trace { W with nvmlDeviceGetName := fun _ => (NVML_SUCCESS, name) }
    (W.nvmlDeviceGetHandleByIndex 0).2 (handleAcquired W)
  rw [lookupNameEvents_eq, if_pos hname] at htr
  rw [lookupNameEvents_eq] at htr'
  simp only [ne_eq, not_true_eq_false, if_false, interrupts_congr_name] at htr'
  rcases pollingLoop_cases W (W.nvmlDeviceGetHandleByIndex 0).2 fuel 0
    (lookupName W (W.nvmlDeviceGetHandleByIndex 0).2 (handleAcquired W)).g_Running
    with hnone | ⟨n, -, hsome⟩
  · have := hnone (lookupName W (W.nvmlDeviceGetHandleByIndex 0).2 (handleAcquired W)).trace
    rw [hs'] at this
    exact absurd this (by simp)
  · have e1 := hsome (lookupName W (W.nvmlDeviceGetHandleByIndex 0).2 (handleAcquired W)).trace
    have e2 := hsome (lookupName { W with nvmlDeviceGetName := fun _ => (NVML_SUCCESS, name) }
      (W.nvmlDeviceGetHandleByIndex 0).2 (handleAcquired W)).trace
    rw [← hrun] at e2
    rw [hs'] at e1
    have hs1 := Option.some.inj e1
    have hrt : r.final.trace = ((handleAcquired W).trace ++ (interrupts W 75 0 ++
        Event.call (Call.nvmlDeviceGetName (W.nvmlDeviceGetHandleByIndex 0).2) ::
          interrupts W 76 0)) ++
        (reportEvents W "Error: Unable to get device name: "
          (W.nvmlDeviceGetName (W.nvmlDeviceGetHandleByIndex 0).2).1 ++
        ((loopEvents W (W.nvmlDeviceGetHandleByIndex 0).2 n 0 ++ interrupts W 87 (0 + n)) ++
          shutdownEvents W)) := by
      rw [← hr, shutdown_trace, hs1, htr]
      simp
    refine ⟨?_, ?_, ?_⟩
    · rw [hrt]
      simp [stderr_append, reportEvents]
    · intro nm
      rw [hrt]
      have hi := fun line k => stdout_interrupts_no_usingGpu W line k nm
      simp [stdout_append, handleAcquired_trace, reportEvents, hi,
        stdout_loopEvents_no_usingGpu, stdout_shutdownEvents_no_usingGpu, -stdout_interrupts]
    · refine ⟨shutdown W ⟨false, (lookupName
        { W with nvmlDeviceGetName := fun _ => (NVML_SUCCESS, name) }
        (W.nvmlDeviceGetHandleByIndex 0).2 (handleAcquired W)).trace ++
          (loopEvents W (W.nvmlDeviceGetHandleByIndex 0).2 n 0 ++ interrupts W 87 (0 + n))⟩,
        _, _, ?_, ?_, hrt, ?_, ?_⟩
      · rw [hmain']
        exact congrArg (Option.map _) e2
      · rw [← hr, shutdown_exit, shutdown_exit]
      · rw [shutdown_trace]
        simp only []
        rw [htr']
        simp
      · rw [shutdown_trace, hrt]
        simp only []
        rw [htr']
        simp [calls_append, reportEvents, Call.isQueryOrShutdown]

theorem roundState_congr_name (W : World) (f : nvmlDevice_t → nvmlReturn_t × String)
    (d : nvmlDevice_t) (k : ℕ) (s : State) :
    ∀ n, roundState { W with nvmlDeviceGetName := f } d k s n = roundState W d k s n := by
  intro n
  induction n with
  | zero => rfl
  | succ n ih =>
    rw [roundState, roundState, ih]
    rfl

/-- The flag read at a check of the loop depends on the state at loop entry through its
flag alone. -/
theorem roundState_running_congr (W : World) (d : nvmlDevice_t) (k : ℕ) (s₁ s₂ : State)
    (h : s₁.g_Running = s₂.g_Running) :
    ∀ n, (roundState W d k s₁ n).g_Running = (roundState W d k s₂ n).g_Running := by
  intro n
  induction n with
  | zero => rw [roundState, roundState, deliver_running, deliver_running, h]
  | succ n ih =>
    rw [roundState, roundState, deliver_running, deliver_running, iteration_eq, iteration_eq, ih]

theorem loopEntry_trace_of_name_failure (W : World)
    (hname : (W.nvmlDeviceGetName (selectedDevice W)).1 ≠ NVML_SUCCESS) :
    (loopEntry W).trace = ((handleAcquired W).trace ++ (interrupts W 75 0 ++
      Event.call (Call.nvmlDeviceGetName (selectedDevice W)) :: interrupts W 76 0)) ++
      reportEvents W "Error: Unable to get device name: "
        (W.nvmlDeviceGetName (selectedDevice W)).1 := by
  rw [loopEntry, lookupName_trace, lookupNameEvents_eq, if_pos hname]
  simp

theorem loopEntry_trace_of_name_success (W : World) (name : String) :
    (loopEntry { W with nvmlDeviceGetName := fun _ => (NVML_SUCCESS, name) }).trace =
      ((handleAcquired W).trace ++ (interrupts W 75 0 ++
        Event.call (Call.nvmlDeviceGetName (selectedDevice W)) :: interrupts W 76 0)) ++
        [Event.out (Out.text ("Using GPU: " ++ name ++ "\n"))] := by
  rw [loopEntry, lookupName_trace, lookupNameEvents_eq]
  simp only [ne_eq, not_true_eq_false, if_false, interrupts_congr_name]
  show (handleAcquired W).trace ++ _ = _
  simp [selectedDevice]

theorem loopEntry_running_congr_name (W : World) (f : nvmlDevice_t → nvmlReturn_t × String) :
    (loopEntry { W with nvmlDeviceGetName := f }).g_Running = (loopEntry W).g_Running := by
  rw [loopEntry, loopEntry, lookupName_running, lookupName_running]
  rfl

theorem stdout_handleAcquired_no_usingGpu (W : World) (nm : String) :
    Out.text ("Using GPU: " ++ nm ++ "\n") ∉ stdout (handleAcquired W).trace := by
  have hi := fun line k => stdout_interrupts_no_usingGpu W line k nm
  simp [stdout_append, handleAcquired_trace, hi, -stdout_interrupts]

/-- Without any interrupt a loop entered with the flag set never stops. -/
theorem pollingLoop_none_of_quiet (W : World) (d : nvmlDevice_t)
    (hq : ∀ line k, W.sigint line k = 0) :
    ∀ (fuel k : ℕ) (s : State), s.g_Running = true → pollingLoop W d fuel k s = none := by
  intro fuel
  induction fuel with
  | zero => intro k s _; rfl
  | succ fuel ih =>
    intro k s hrun
    have h87 : (deliver W 87 k s).g_Running = true := by
      rw [deliver_running, hrun, hq]; rfl
    rw [pollingLoop, if_pos h87]
    apply ih
    rw [iteration_running]
    exact ⟨h87, hq _ _, hq _ _, hq _ _, hq _ _, hq _ _, hq _ _⟩

/-- The run of `quietNameFailureWorld` does not end, whatever the fuel. -/
theorem quietNameFailureWorld_never_ends (fuel : ℕ) :
    main quietNameFailureWorld fuel = none := by
  rw [main_of_startupOk _ _ (by decide),
    pollingLoop_none_of_quiet _ _ (fun _ _ => rfl) _ _ _ (by decide)]
  rfl

/-- C8: for every library on which init, device count and handle lookup succeed and the
name lookup fails, whether or not the run is ever interrupted.  When the loop is
entered, `std::cerr` holds exactly the diagnostic with the library's error text and
`std::cout` holds no `Using GPU` line.  The program goes on into the polling loop.  At
every flag check of the loop, the run and the run against the library that differs
only in that the name lookup succeeds have the same flag and the same events before
and after the name report: in particular the same sequence of utilization and memory
calls.  The two runs end together, with the same exit status and the same calls,
shutdown included. -/
theorem name_lookup_failure_nonfatal (W : World) (name : String) (hs : startupOk W)
    (hname : (W.nvmlDeviceGetName (selectedDevice W)).1 ≠ NVML_SUCCESS) :
    stderr (loopEntry W).trace = ["Error: Unable to get device name: " ++
      W.nvmlErrorString (W.nvmlDeviceGetName (selectedDevice W)).1 ++ "\n"] ∧
    (∀ nm, Out.text ("Using GPU: " ++ nm ++ "\n") ∉ stdout (loopEntry W).trace) ∧
    (∀ fuel, main W fuel =
      (pollingLoop W (selectedDevice W) fuel 0 (loopEntry W)).map (shutdown W)) ∧
    (∃ before, ∀ n,
      (roundState { W with nvmlDeviceGetName := fun _ => (NVML_SUCCESS, name) }
          (selectedDevice W) 0
          (loopEntry { W with nvmlDeviceGetName := fun _ => (NVML_SUCCESS, name) }) n).g_Running =
        (roundState W (selectedDevice W) 0 (loopEntry W) n).g_Running ∧
      (roundState W (selectedDevice W) 0 (loopEntry W) n).trace =
        before ++ (reportEvents W "Error: Unable to get device name: "
          (W.nvmlDeviceGetName (selectedDevice W)).1 ++
            (loopEvents W (selectedDevice W) n 0 ++ interrupts W 87 n)) ∧
      (roundState { W with nvmlDeviceGetName := fun _ => (NVML_SUCCESS, name) }
          (selectedDevice W) 0
          (loopEntry { W with nvmlDeviceGetName := fun _ => (NVML_SUCCESS, name) }) n).trace =
        before ++ (Event.out (Out.text ("Using GPU: " ++ name ++ "\n")) ::
          (loopEvents W (selectedDevice W) n 0 ++ interrupts W 87 n)) ∧
      (calls (roundState { W with nvmlDeviceGetName := fun _ => (NVML_SUCCESS, name) }
          (selectedDevice W) 0
          (loopEntry { W with nvmlDeviceGetName := fun _ => (NVML_SUCCESS, name) }) n).trace).filter
          Call.isQueryOrShutdown =
        (calls (roundState W (selectedDevice W) 0 (loopEntry W) n).trace).filter
          Call.isQueryOrShutdown ∧
      (∀ nm, Out.text ("Using GPU: " ++ nm ++ "\n") ∉
        stdout (roundState W (selectedDevice W) 0 (loopEntry W) n).trace)) ∧
    (∀ fuel,
      (main { W with nvmlDeviceGetName := fun _ => (NVML_SUCCESS, name) } fuel).isSome =
        (main W fuel).isSome ∧
      ∀ r, main W fuel = some r →
        ("Error: Unable to get device name: " ++
          W.nvmlErrorString (W.nvmlDeviceGetName (selectedDevice W)).1 ++ "\n") ∈
            stderr r.final.trace ∧
        (∀ nm, Out.text ("Using GPU: " ++ nm ++ "\n") ∉ stdout r.final.trace) ∧
        ∃ r' before after,
          main { W with nvmlDeviceGetName := fun _ => (NVML_SUCCESS, name) } fuel = some r' ∧
          r'.exit = r.exit ∧
          r.final.trace = before ++ (reportEvents W "Error: Unable to get device name: "
            (W.nvmlDeviceGetName (selectedDevice W)).1 ++ after) ∧
          r'.final.trace =
            before ++ (Event.out (Out.text ("Using GPU: " ++ name ++ "\n")) :: after) ∧
          (calls r'.final.trace).filter Call.isQueryOrShutdown =
            (calls r.final.trace).filter Call.isQueryOrShutdown) := by
  have hentry := loopEntry_trace_of_name_failure W hname
  have hentry' := loopEntry_trace_of_name_success W name
  have hflag := loopEntry_running_congr_name W (fun _ => (NVML_SUCCESS, name))
  refine ⟨?_, ?_, fun fuel => main_of_startupOk W fuel hs,
    ⟨(handleAcquired W).trace ++ (interrupts W 75 0 ++
      Event.call (Call.nvmlDeviceGetName (selectedDevice W)) :: interrupts W 76 0),
      fun n => ⟨?_, ?_, ?_, ?_, ?_⟩⟩,
    fun fuel => ⟨?_, fun r h => ?_⟩⟩
  · rw [hentry]
    simp [stderr_append, handleAcquired_trace, reportEvents]
  · intro nm
    rw [hentry]
    have hi := fun line k => stdout_interrupts_no_usingGpu W line k nm
    simp [stdout_append, reportEvents, hi, stdout_handleAcquired_no_usingGpu,
      -stdout_interrupts]
  · rw [roundState_congr_name]
    exact roundState_running_congr W _ 0 _ _ hflag n
  · rw [roundState_trace, hentry]
    simp
  · rw [roundState_congr_name, roundState_trace, hentry']
    simp
  · rw [roundState_congr_name, roundState_trace, roundState_trace, hentry, hentry']
    simp [calls_append, reportEvents, Call.isQueryOrShutdown]
  · intro nm
    rw [roundState_trace, hentry]
    have hi := fun line k => stdout_interrupts_no_usingGpu W line k nm
    simp [stdout_append, reportEvents, hi, stdout_handleAcquired_no_usingGpu,
      stdout_loopEvents_no_usingGpu, -stdout_interrupts]
  · rw [main_of_startupOk W fuel hs,
      main_of_startupOk { W with nvmlDeviceGetName := fun _ => (NVML_SUCCESS, name) } fuel hs,
      pollingLoop_congr_name, Option.isSome_map', Option.isSome_map']
    rcases pollingLoop_cases W (W.nvmlDeviceGetHandleByIndex 0).2 fuel 0
      (loopEntry W).g_Running with hnone | ⟨m, -, hsome⟩
    · have e1 := hnone (loopEntry W).trace
      have e2 := hnone (loopEntry
        { W with nvmlDeviceGetName := fun _ => (NVML_SUCCESS, name) }).trace
      rw [← hflag] at e2
      unfold loopEntry selectedDevice at e1 e2
      rw [e1, e2]
    · have e1 := hsome (loopEntry W).trace
      have e2 := hsome (loopEntry
        { W with nvmlDeviceGetName := fun _ => (NVML_SUCCESS, name) }).trace
      rw [← hflag] at e2
      unfold loopEntry selectedDevice at e1 e2
      rw [e1, e2]
      rfl
  · obtain ⟨-, h2, h3, h4⟩ := name_failure_terminating_run W name fuel r hs hname h
    exact ⟨h2, h3, h4⟩

/-- Witness of C8, first on a library whose name lookup fails and which never delivers
an interrupt, so that the run never ends; then on one whose run ends after one
round. -/
theorem name_lookup_failure_nonfatal_witness :
    (startupOk quietNameFailureWorld ∧
      stderr (loopEntry quietNameFailureWorld).trace =
        ["Error: Unable to get device name: Unknown Error\n"]) ∧
    (startupOk nameFailureWorld ∧
      ∃ r, main nameFailureWorld 2 = some r ∧
        "Error: Unable to get device name: Unknown Error\n" ∈ stderr r.final.trace ∧
        ∀ nm, Out.text ("Using GPU: " ++ nm ++ "\n") ∉ stdout r.final.trace) :=
  ⟨⟨by decide,
      (name_lookup_failure_nonfatal quietNameFailureWorld "GPU-0" (by decide) (by decide)).1⟩,
    by decide, _, rfl,
    (((name_lookup_failure_nonfatal nameFailureWorld "GPU-0" (by decide)
      (by decide)).2.2.2.2 2).2 _ rfl).1,
    (((name_lookup_failure_nonfatal nameFailureWorld "GPU-0" (by decide)
      (by decide)).2.2.2.2 2).2 _ rfl).2.1⟩

/-! # binary64 rounding and the memory figures -/

/-! ## Rounding to an integer -/

theorem roundHalfEven_intCast (n : ℤ) : roundHalfEven (n : ℚ) = n := by
  simp [roundHalfEven]

theorem floor_le_roundHalfEven (x : ℚ) : ⌊x⌋ ≤ roundHalfEven x := by
  unfold roundHalfEven
  split_ifs <;> omega

theorem roundHalfEven_le_floor_add_one (x : ℚ) : roundHalfEven x ≤ ⌊x⌋ + 1 := by
  unfold roundHalfEven
  split_ifs <;> omega

theorem roundHalfEven_le (x : ℚ) (n : ℤ) (h : x ≤ n) : roundHalfEven x ≤ n := by
  rcases eq_or_lt_of_le (Int.floor_le x) with hx | hx
  · rw [← hx, roundHalfEven_intCast]
    have : ((⌊x⌋ : ℤ) : ℚ) ≤ n := (Int.floor_le x).trans h
    exact_mod_cast this
  · have h1 : ((⌊x⌋ : ℤ) : ℚ) < n := lt_of_lt_of_le hx h
    have h2 : ⌊x⌋ < n := by exact_mod_cast h1
    have := roundHalfEven_le_floor_add_one x
    omega

theorem le_roundHalfEven (x : ℚ) (n : ℤ) (h : (n : ℚ) ≤ x) : n ≤ roundHalfEven x :=
  (Int.le_floor.mpr h).trans (floor_le_roundHalfEven x)

theorem abs_sub_roundHalfEven (x : ℚ) : |x - roundHalfEven x| ≤ 1 / 2 := by
  have h1 := Int.floor_le x
  have h2 := Int.lt_floor_add_one x
  unfold roundHalfEven
  split_ifs with a b c
  · rw [abs_le]; constructor <;> linarith
  · rw [abs_le]; push_cast; constructor <;> linarith
  · rw [abs_le]; constructor <;> linarith
  · rw [abs_le]; push_cast; constructor <;> linarith

theorem roundHalfEven_eq_of_abs_lt (x : ℚ) (n : ℤ) (h : |x - n| < 1 / 2) :
    roundHalfEven x = n := by
  rw [abs_lt] at h
  have h3 := abs_le.mp (abs_sub_roundHalfEven x)
  have : ((roundHalfEven x : ℤ) : ℚ) - n < 1 := by linarith [h.1, h.2, h3.1, h3.2]
  have : (n : ℚ) - (roundHalfEven x : ℤ) < 1 := by linarith [h.1, h.2, h3.1, h3.2]
  have a : roundHalfEven x - n < 1 := by exact_mod_cast ‹((roundHalfEven x : ℤ) : ℚ) - n < 1›
  have b : n - roundHalfEven x < 1 := by exact_mod_cast this
  omega

theorem roundHalfEven_mono {x y : ℚ} (h : x ≤ y) : roundHalfEven x ≤ roundHalfEven y := by
  rcases lt_or_eq_of_le (Int.floor_mono h) with hf | hf
  · have := roundHalfEven_le_floor_add_one x
    have := floor_le_roundHalfEven y
    omega
  · unfold roundHalfEven
    rw [hf]
    split_ifs <;> first | omega | (exfalso; linarith)

theorem roundHalfEven_tie_even (n : ℤ) (h : n % 2 = 0) : roundHalfEven ((n : ℚ) + 1 / 2) = n := by
  have hf : ⌊(n : ℚ) + 1 / 2⌋ = n := by
    rw [Int.floor_eq_iff]; constructor <;> norm_num
  unfold roundHalfEven
  rw [hf]
  norm_num [h]

theorem lt_roundHalfEven (x : ℚ) (n : ℤ) (h : (n : ℚ) + 1 / 2 < x) : n < roundHalfEven x := by
  have h3 := abs_le.mp (abs_sub_roundHalfEven x)
  have : (n : ℚ) < (roundHalfEven x : ℤ) := by linarith [h3.2]
  exact_mod_cast this

/-! ## Binades -/

theorem binadeExp_eq {q : ℚ} {e : ℤ} (h1 : (2 : ℚ) ^ e ≤ q) (h2 : q < (2 : ℚ) ^ (e + 1))
    (he : -1022 ≤ e) : binadeExp q = e := by
  have hq : 0 < q := lt_of_lt_of_le (zpow_pos (by norm_num) e) h1
  have hl : Int.log 2 q = e := by
    apply le_antisymm
    · have := (Int.lt_zpow_iff_log_lt (b := 2) (by norm_num) hq (x := e + 1)).mp
        (by exact_mod_cast h2)
      omega
    · exact (Int.zpow_le_iff_le_log (b := 2) (by norm_num) hq).mp (by exact_mod_cast h1)
  rw [binadeExp, abs_of_pos hq, hl]
  exact max_eq_left he

theorem zpow_log_le {q : ℚ} (hq : 0 < q) : (2 : ℚ) ^ Int.log 2 q ≤ q := by
  exact_mod_cast Int.zpow_log_le_self (b := 2) (by norm_num) hq

theorem lt_zpow_log_succ (q : ℚ) : q < (2 : ℚ) ^ (Int.log 2 q + 1) := by
  exact_mod_cast Int.lt_zpow_succ_log_self (b := 2) (by norm_num) q

theorem log_ge_of_le {q : ℚ} {e : ℤ} (h : (2 : ℚ) ^ e ≤ q) : e ≤ Int.log 2 q := by
  have hq : 0 < q := lt_of_lt_of_le (zpow_pos (by norm_num) e) h
  exact (Int.zpow_le_iff_le_log (b := 2) (by norm_num) hq).mp (by exact_mod_cast h)

theorem roundNearestEven_eq {q : ℚ} {e : ℤ} (h1 : (2 : ℚ) ^ e ≤ q) (h2 : q < (2 : ℚ) ^ (e + 1))
    (he : -1022 ≤ e) :
    roundNearestEven q = (roundHalfEven (q / (2 : ℚ) ^ (e - 52)) : ℚ) * (2 : ℚ) ^ (e - 52) := by
  rw [roundNearestEven, ulp, binadeExp_eq h1 h2 he]

theorem roundNearestEven_zero : roundNearestEven 0 = 0 := by
  simp [roundNearestEven, roundHalfEven]

theorem Sig53.bounds {f : ℚ} {m e : ℤ} (h1 : 2 ^ 52 ≤ m) (h2 : m < 2 ^ 53)
    (hf : f = (m : ℚ) * (2 : ℚ) ^ (e - 52)) : (2 : ℚ) ^ e ≤ f ∧ f < (2 : ℚ) ^ (e + 1) := by
  have hp : (0 : ℚ) < (2 : ℚ) ^ (e - 52) := zpow_pos (by norm_num) _
  have e1 : (2 : ℚ) ^ e = (2 : ℚ) ^ (52 : ℕ) * (2 : ℚ) ^ (e - 52) := by
    rw [← zpow_natCast, ← zpow_add₀ (by norm_num)]; congr 1; omega
  have e2 : (2 : ℚ) ^ (e + 1) = (2 : ℚ) ^ (53 : ℕ) * (2 : ℚ) ^ (e - 52) := by
    rw [← zpow_natCast, ← zpow_add₀ (by norm_num)]; congr 1; omega
  rw [hf, e1, e2]
  constructor
  · apply mul_le_mul_of_nonneg_right _ hp.le
    exact_mod_cast h1
  · apply mul_lt_mul_of_pos_right _ hp
    exact_mod_cast h2

theorem roundNearestEven_of_sig53 {f : ℚ} (h : Sig53 f) : roundNearestEven f = f := by
  obtain ⟨m, e, h1, h2, he, hf⟩ := h
  obtain ⟨b1, b2⟩ := Sig53.bounds h1 h2 hf
  rw [roundNearestEven_eq b1 b2 he]
  have hp : (2 : ℚ) ^ (e - 52) ≠ 0 := (zpow_pos (by norm_num) _).ne'
  rw [hf, mul_div_assoc, div_self hp, mul_one, roundHalfEven_intCast]

theorem zpow_split (e : ℤ) (k : ℕ) :
    (2 : ℚ) ^ (e - 52 + k) = (2 : ℚ) ^ k * (2 : ℚ) ^ (e - 52) := by
  rw [← zpow_natCast, ← zpow_add₀ (by norm_num)]; congr 1; omega

/-- In the binade `[2^e, 2^(e+1))` the scaled value `q / 2^(e-52)` lies in `[2^52, 2^53)`. -/
theorem scaled_bounds {q : ℚ} {e : ℤ} (h1 : (2 : ℚ) ^ e ≤ q) (h2 : q < (2 : ℚ) ^ (e + 1)) :
    ((2 ^ 52 : ℤ) : ℚ) ≤ q / (2 : ℚ) ^ (e - 52) ∧ q / (2 : ℚ) ^ (e - 52) < ((2 ^ 53 : ℤ) : ℚ) := by
  have hp : (0 : ℚ) < (2 : ℚ) ^ (e - 52) := zpow_pos (by norm_num) _
  have e1 : (2 : ℚ) ^ e = (2 : ℚ) ^ (52 : ℕ) * (2 : ℚ) ^ (e - 52) := by
    rw [← zpow_split]; congr 1; omega
  have e2 : (2 : ℚ) ^ (e + 1) = (2 : ℚ) ^ (53 : ℕ) * (2 : ℚ) ^ (e - 52) := by
    rw [← zpow_split]; congr 1; omega
  constructor
  · rw [le_div_iff₀ hp, Int.cast_pow, Int.cast_ofNat, ← e1]; exact h1
  · rw [div_lt_iff₀ hp, Int.cast_pow, Int.cast_ofNat, ← e2]; exact h2

theorem roundNearestEven_bounds {q : ℚ} {e : ℤ} (h1 : (2 : ℚ) ^ e ≤ q)
    (h2 : q < (2 : ℚ) ^ (e + 1)) (he : -1022 ≤ e) :
    (2 : ℚ) ^ e ≤ roundNearestEven q ∧ roundNearestEven q ≤ (2 : ℚ) ^ (e + 1) := by
  have hp : (0 : ℚ) < (2 : ℚ) ^ (e - 52) := zpow_pos (by norm_num) _
  obtain ⟨s1, s2⟩ := scaled_bounds h1 h2
  have r1 := le_roundHalfEven _ _ s1
  have r2 := roundHalfEven_le _ _ s2.le
  have e1 : (2 : ℚ) ^ e = (2 : ℚ) ^ (52 : ℕ) * (2 : ℚ) ^ (e - 52) := by
    rw [← zpow_split]; congr 1; omega
  have e2 : (2 : ℚ) ^ (e + 1) = (2 : ℚ) ^ (53 : ℕ) * (2 : ℚ) ^ (e - 52) := by
    rw [← zpow_split]; congr 1; omega
  rw [roundNearestEven_eq h1 h2 he, e1, e2]
  constructor
  · apply mul_le_mul_of_nonneg_right _ hp.le
    exact_mod_cast r1
  · apply mul_le_mul_of_nonneg_right _ hp.le
    exact_mod_cast r2

theorem sig53_roundNearestEven {q : ℚ} {e : ℤ} (h1 : (2 : ℚ) ^ e ≤ q)
    (h2 : q < (2 : ℚ) ^ (e + 1)) (he : -1022 ≤ e) : Sig53 (roundNearestEven q) := by
  obtain ⟨s1, s2⟩ := scaled_bounds h1 h2
  have r1 := le_roundHalfEven _ _ s1
  have r2 := roundHalfEven_le _ _ s2.le
  rw [roundNearestEven_eq h1 h2 he]
  rcases lt_or_eq_of_le r2 with r3 | r3
  · exact ⟨_, e, r1, r3, he, rfl⟩
  · refine ⟨2 ^ 52, e + 1, le_refl _, by norm_num, by omega, ?_⟩
    rw [r3, show e + 1 - 52 = e - 52 + (1 : ℕ) by omega, zpow_split]
    push_cast
    ring

/-- A number with a 53-bit significand that is not below `q` is not below the rounding
of `q`. -/
theorem roundNearestEven_le_of_le {q f : ℚ} {e : ℤ} (h1 : (2 : ℚ) ^ e ≤ q)
    (h2 : q < (2 : ℚ) ^ (e + 1)) (he : -1022 ≤ e) (hf : Sig53 f) (h : q ≤ f) :
    roundNearestEven q ≤ f := by
  obtain ⟨m, e', m1, m2, he', rfl⟩ := hf
  obtain ⟨b1, b2⟩ := Sig53.bounds m1 m2 rfl
  have hp : (0 : ℚ) < (2 : ℚ) ^ (e - 52) := zpow_pos (by norm_num) _
  have hee : e ≤ e' := by
    have : (2 : ℚ) ^ e < (2 : ℚ) ^ (e' + 1) := lt_of_le_of_lt (h1.trans h) b2
    have := (zpow_lt_zpow_iff_right₀ (by norm_num : (1 : ℚ) < 2)).mp this
    omega
  obtain ⟨k, hk⟩ : ∃ k : ℕ, e' - 52 = e - 52 + k := ⟨(e' - e).toNat, by omega⟩
  have hfm : (m : ℚ) * (2 : ℚ) ^ (e' - 52) = ((m * 2 ^ k : ℤ) : ℚ) * (2 : ℚ) ^ (e - 52) := by
    rw [hk, zpow_split]; push_cast; ring
  rw [roundNearestEven_eq h1 h2 he, hfm]
  apply mul_le_mul_of_nonneg_right _ hp.le
  have : q / (2 : ℚ) ^ (e - 52) ≤ ((m * 2 ^ k : ℤ) : ℚ) := by
    rw [div_le_iff₀ hp, ← hfm]; exact h
  exact_mod_cast roundHalfEven_le _ _ this

/-- A number with a 53-bit significand that is not above `q` is not above the rounding
of `q`. -/
theorem le_roundNearestEven_of_le {q f : ℚ} {e : ℤ} (h1 : (2 : ℚ) ^ e ≤ q)
    (h2 : q < (2 : ℚ) ^ (e + 1)) (he : -1022 ≤ e) (hf : Sig53 f) (h : f ≤ q) :
    f ≤ roundNearestEven q := by
  obtain ⟨m, e', m1, m2, he', rfl⟩ := hf
  obtain ⟨b1, b2⟩ := Sig53.bounds m1 m2 rfl
  have hp : (0 : ℚ) < (2 : ℚ) ^ (e - 52) := zpow_pos (by norm_num) _
  have hee : e' ≤ e := by
    have : (2 : ℚ) ^ e' < (2 : ℚ) ^ (e + 1) := lt_of_le_of_lt (b1.trans h) h2
    have := (zpow_lt_zpow_iff_right₀ (by norm_num : (1 : ℚ) < 2)).mp this
    omega
  rcases lt_or_eq_of_le hee with hlt | rfl
  · have : (2 : ℚ) ^ (e' + 1) ≤ (2 : ℚ) ^ e :=
      (zpow_le_zpow_iff_right₀ (by norm_num : (1 : ℚ) < 2)).mpr (by omega)
    exact (b2.le.trans this).trans (roundNearestEven_bounds h1 h2 he).1
  · rw [roundNearestEven_eq h1 h2 he]
    apply mul_le_mul_of_nonneg_right _ hp.le
    have : (m : ℚ) ≤ q / (2 : ℚ) ^ (e' - 52) := by
      rw [le_div_iff₀ hp]; exact h
    exact_mod_cast le_roundHalfEven _ _ this

theorem roundNearestEven_mono {q₁ q₂ : ℚ} (h0 : (2 : ℚ) ^ (-1022 : ℤ) ≤ q₁) (h : q₁ ≤ q₂) :
    roundNearestEven q₁ ≤ roundNearestEven q₂ := by
  have hq1 : 0 < q₁ := lt_of_lt_of_le (zpow_pos (by norm_num) _) h0
  have hq2 : 0 < q₂ := lt_of_lt_of_le hq1 h
  have a1 := zpow_log_le hq1
  have a2 := lt_zpow_log_succ q₁
  have c1 := zpow_log_le hq2
  have c2 := lt_zpow_log_succ q₂
  have he1 : -1022 ≤ Int.log 2 q₁ := log_ge_of_le h0
  have hle : Int.log 2 q₁ ≤ Int.log 2 q₂ := Int.log_mono_right hq1 h
  have he2 : -1022 ≤ Int.log 2 q₂ := he1.trans hle
  rcases lt_or_eq_of_le hle with hlt | heq
  · have : (2 : ℚ) ^ (Int.log 2 q₁ + 1) ≤ (2 : ℚ) ^ Int.log 2 q₂ :=
      (zpow_le_zpow_iff_right₀ (by norm_num : (1 : ℚ) < 2)).mpr (by omega)
    exact ((roundNearestEven_bounds a1 a2 he1).2.trans this).trans
      (roundNearestEven_bounds c1 c2 he2).1
  · rw [roundNearestEven_eq a1 a2 he1, roundNearestEven_eq c1 c2 he2, heq]
    have hp : (0 : ℚ) < (2 : ℚ) ^ (Int.log 2 q₂ - 52) := zpow_pos (by norm_num) _
    apply mul_le_mul_of_nonneg_right _ hp.le
    exact_mod_cast roundHalfEven_mono (div_le_div_of_nonneg_right h hp.le)

/-! ## Rounding in the normal range -/

theorem normal_binade {q : ℚ} (h0 : (2 : ℚ) ^ (-1022 : ℤ) ≤ q) :
    (2 : ℚ) ^ Int.log 2 q ≤ q ∧ q < (2 : ℚ) ^ (Int.log 2 q + 1) ∧ -1022 ≤ Int.log 2 q :=
  ⟨zpow_log_le (lt_of_lt_of_le (zpow_pos (by norm_num) _) h0), lt_zpow_log_succ q,
    log_ge_of_le h0⟩

theorem sig53_round {q : ℚ} (h0 : (2 : ℚ) ^ (-1022 : ℤ) ≤ q) : Sig53 (roundNearestEven q) :=
  sig53_roundNearestEven (normal_binade h0).1 (normal_binade h0).2.1 (normal_binade h0).2.2

theorem round_le_of_le {q f : ℚ} (h0 : (2 : ℚ) ^ (-1022 : ℤ) ≤ q) (hf : Sig53 f) (h : q ≤ f) :
    roundNearestEven q ≤ f :=
  roundNearestEven_le_of_le (normal_binade h0).1 (normal_binade h0).2.1 (normal_binade h0).2.2
    hf h

theorem le_round_of_le {q f : ℚ} (h0 : (2 : ℚ) ^ (-1022 : ℤ) ≤ q) (hf : Sig53 f) (h : f ≤ q) :
    f ≤ roundNearestEven q :=
  le_roundNearestEven_of_le (normal_binade h0).1 (normal_binade h0).2.1 (normal_binade h0).2.2
    hf h

/-- Powers of two from `2^-1022` on have a 53-bit significand. -/
theorem sig53_zpow {e : ℤ} (he : -1022 ≤ e) : Sig53 ((2 : ℚ) ^ e) := by
  refine ⟨2 ^ 52, e, le_refl _, by norm_num, he, ?_⟩
  rw [Int.cast_pow, Int.cast_ofNat, ← zpow_natCast, ← zpow_add₀ (by norm_num)]
  congr 1; omega

theorem sig53_pos {f : ℚ} (h : Sig53 f) : 0 < f := by
  obtain ⟨m, e, h1, h2, -, hf⟩ := h
  exact lt_of_lt_of_le (zpow_pos (by norm_num) e) (Sig53.bounds h1 h2 hf).1

/-- Scaling by a power of two keeps the significand, as long as the result stays in the
normal range. -/
theorem sig53_mul_zpow {f : ℚ} (hf : Sig53 f) (k : ℤ)
    (h : (2 : ℚ) ^ (-1022 : ℤ) ≤ f * (2 : ℚ) ^ k) : Sig53 (f * (2 : ℚ) ^ k) := by
  obtain ⟨m, e, h1, h2, he, rfl⟩ := hf
  have b := (Sig53.bounds h1 h2 (rfl : (m : ℚ) * (2 : ℚ) ^ (e - 52) = _)).2
  have hk : (0 : ℚ) < (2 : ℚ) ^ k := zpow_pos (by norm_num) _
  have : (2 : ℚ) ^ (-1022 : ℤ) < (2 : ℚ) ^ (e + 1 + k) := by
    rw [zpow_add₀ (by norm_num : (2 : ℚ) ≠ 0) (e + 1) k]
    exact lt_of_le_of_lt h (mul_lt_mul_of_pos_right b hk)
  have := (zpow_lt_zpow_iff_right₀ (by norm_num : (1 : ℚ) < 2)).mp this
  refine ⟨m, e + k, h1, h2, by omega, ?_⟩
  rw [mul_assoc, ← zpow_add₀ (by norm_num : (2 : ℚ) ≠ 0)]
  congr 2; omega

theorem ofRat_eq_finite {q : ℚ} (h : |roundNearestEven q| < (2 : ℚ) ^ (1024 : ℕ)) :
    Double.ofRat q = Double.finite (roundNearestEven q) := by
  rw [Double.ofRat, if_neg (not_le.mpr h)]

theorem ofRat_zero : Double.ofRat 0 = Double.finite 0 := by
  rw [ofRat_eq_finite] <;> rw [roundNearestEven_zero]
  norm_num

/-- Rounding leaves a number with a 53-bit significand below `2^1024` as it is. -/
theorem ofRat_of_sig53 {f : ℚ} (hf : Sig53 f) (h : f < (2 : ℚ) ^ (1024 : ℕ)) :
    Double.ofRat f = Double.finite f := by
  rw [ofRat_eq_finite] <;> rw [roundNearestEven_of_sig53 hf]
  rw [abs_of_pos (sig53_pos hf)]; exact h

/-! ## The memory figures of the sample line -/

theorem round_natCast_pos {n : ℕ} (h0 : 0 < n) (h : n < 2 ^ 64) :
    Sig53 (roundNearestEven n) ∧ 1 ≤ roundNearestEven n ∧
      roundNearestEven n ≤ (2 : ℚ) ^ (64 : ℤ) := by
  have h1 : (1 : ℚ) ≤ n := by exact_mod_cast h0
  have hn : (2 : ℚ) ^ (-1022 : ℤ) ≤ n :=
    le_trans (zpow_le_one_of_nonpos₀ (by norm_num) (by norm_num)) h1
  have h64 : (n : ℚ) ≤ (2 : ℚ) ^ (64 : ℤ) := by
    rw [show (2 : ℚ) ^ (64 : ℤ) = ((2 ^ 64 : ℕ) : ℚ) by norm_num]
    exact_mod_cast h.le
  refine ⟨sig53_round hn, ?_, round_le_of_le hn (sig53_zpow (by norm_num)) h64⟩
  have := le_round_of_le hn (sig53_zpow (by norm_num : (-1022 : ℤ) ≤ 0)) (by simpa using h1)
  simpa using this

theorem ofUInt64_eq {n : ℕ} (h : n < 2 ^ 64) :
    Double.ofUInt64 n = Double.finite (roundNearestEven n) := by
  rcases Nat.eq_zero_or_pos n with rfl | h0
  · simp [Double.ofUInt64, ofRat_zero, roundNearestEven_zero]
  · obtain ⟨hs, h1, h2⟩ := round_natCast_pos h0 h
    apply ofRat_eq_finite
    rw [abs_of_pos (sig53_pos hs)]
    exact lt_of_le_of_lt h2 (by norm_num)

/-- Dividing by `1024.0` twice is exact on a converted byte count. -/
theorem div_1024_twice {x : ℚ} (hx : x = 0 ∨ (Sig53 x ∧ 1 ≤ x ∧ x ≤ (2 : ℚ) ^ (64 : ℤ))) :
    ((Double.finite x).div (Double.finite 1024)).div (Double.finite 1024) =
      Double.finite (x / 1024 / 1024) := by
  rcases hx with rfl | ⟨hs, h1, h2⟩
  · simp [Double.div, ofRat_zero]
  · have e10 : ∀ y : ℚ, y / 1024 = y * (2 : ℚ) ^ (-10 : ℤ) := fun y => by
      rw [div_eq_mul_inv]; congr 1; norm_num
    have hs1 : Sig53 (x / 1024) := by
      rw [e10]
      apply sig53_mul_zpow hs
      calc (2 : ℚ) ^ (-1022 : ℤ) ≤ 1 * (2 : ℚ) ^ (-10 : ℤ) := by
            rw [one_mul]; exact (zpow_le_zpow_iff_right₀ (by norm_num)).mpr (by norm_num)
        _ ≤ x * (2 : ℚ) ^ (-10 : ℤ) :=
            mul_le_mul_of_nonneg_right h1 (zpow_pos (by norm_num) _).le
    have hs2 : Sig53 (x / 1024 / 1024) := by
      rw [e10 (x / 1024)]
      apply sig53_mul_zpow hs1
      calc (2 : ℚ) ^ (-1022 : ℤ) ≤ 1 / 1024 * (2 : ℚ) ^ (-10 : ℤ) := by
            rw [show (1 : ℚ) / 1024 = (2 : ℚ) ^ (-10 : ℤ) by norm_num,
              ← zpow_add₀ (by norm_num : (2 : ℚ) ≠ 0)]
            exact (zpow_le_zpow_iff_right₀ (by norm_num)).mpr (by norm_num)
        _ ≤ x / 1024 * (2 : ℚ) ^ (-10 : ℤ) :=
            mul_le_mul_of_nonneg_right (by linarith) (zpow_pos (by norm_num) _).le
    have hb : x ≤ (2 : ℚ) ^ (64 : ℕ) := by
      rw [show (2 : ℚ) ^ (64 : ℕ) = (2 : ℚ) ^ (64 : ℤ) by norm_num]; exact h2
    have b1 : x / 1024 < (2 : ℚ) ^ (1024 : ℕ) := by
      have : (2 : ℚ) ^ (64 : ℕ) < (2 : ℚ) ^ (1024 : ℕ) := by norm_num
      linarith
    have b2 : x / 1024 / 1024 < (2 : ℚ) ^ (1024 : ℕ) := by
      have : (2 : ℚ) ^ (64 : ℕ) < (2 : ℚ) ^ (1024 : ℕ) := by norm_num
      linarith
    simp only [Double.div]
    rw [if_neg (by norm_num), ofRat_of_sig53 hs1 b1]
    simp only [Double.div]
    rw [if_neg (by norm_num), ofRat_of_sig53 hs2 b2]

theorem round_natCast_cases {n : ℕ} (h : n < 2 ^ 64) :
    roundNearestEven n = 0 ∨ (Sig53 (roundNearestEven n) ∧ 1 ≤ roundNearestEven n ∧
      roundNearestEven n ≤ (2 : ℚ) ^ (64 : ℤ)) := by
  rcases Nat.eq_zero_or_pos n with rfl | h0
  · left; simp [roundNearestEven_zero]
  · right; exact round_natCast_pos h0 h

theorem memUsedMB_eq (m : nvmlMemory_t) (h : m.used < 2 ^ 64) :
    memUsedMB m = Double.finite (roundNearestEven m.used / 1024 / 1024) := by
  rw [memUsedMB, ofUInt64_eq h, div_1024_twice (round_natCast_cases h)]

theorem memTotalMB_eq (m : nvmlMemory_t) (h : m.total < 2 ^ 64) :
    memTotalMB m = Double.finite (roundNearestEven m.total / 1024 / 1024) := by
  rw [memTotalMB, ofUInt64_eq h, div_1024_twice (round_natCast_cases h)]

theorem round_range {q : ℚ} {a b : ℤ} (ha : -1022 ≤ a) (h1 : (2 : ℚ) ^ a ≤ q)
    (h2 : q ≤ (2 : ℚ) ^ b) :
    Sig53 (roundNearestEven q) ∧ (2 : ℚ) ^ a ≤ roundNearestEven q ∧
      roundNearestEven q ≤ (2 : ℚ) ^ b := by
  have hab : a ≤ b := (zpow_le_zpow_iff_right₀ (by norm_num : (1 : ℚ) < 2)).mp (h1.trans h2)
  have h0 : (2 : ℚ) ^ (-1022 : ℤ) ≤ q :=
    le_trans ((zpow_le_zpow_iff_right₀ (by norm_num : (1 : ℚ) < 2)).mpr ha) h1
  exact ⟨sig53_round h0, le_round_of_le h0 (sig53_zpow ha) h1,
    round_le_of_le h0 (sig53_zpow (by omega)) h2⟩

theorem ofRat_of_range {q : ℚ} {a b : ℤ} (ha : -1022 ≤ a) (hb : b < 1024)
    (h1 : (2 : ℚ) ^ a ≤ q) (h2 : q ≤ (2 : ℚ) ^ b) :
    Double.ofRat q = Double.finite (roundNearestEven q) := by
  obtain ⟨hs, -, r2⟩ := round_range ha h1 h2
  apply ofRat_eq_finite
  rw [abs_of_pos (sig53_pos hs)]
  apply lt_of_le_of_lt r2
  rw [← zpow_natCast]
  exact (zpow_lt_zpow_iff_right₀ (by norm_num : (1 : ℚ) < 2)).mpr (by exact_mod_cast hb)

/-! ## Exactly representable values and concrete roundings -/

/-- Integers below `2^53` convert to `double` without rounding. -/
theorem sig53_natCast {n : ℕ} (h0 : 0 < n) (h : n < 2 ^ 53) : Sig53 (n : ℚ) := by
  have hl : Nat.log 2 n < 53 := Nat.log_lt_of_lt_pow h0.ne' h
  have h1 : 2 ^ Nat.log 2 n ≤ n := Nat.pow_log_le_self 2 h0.ne'
  have h2 : n < 2 ^ (Nat.log 2 n + 1) := Nat.lt_pow_succ_log_self (by norm_num) n
  obtain ⟨j, hj⟩ : ∃ j, Nat.log 2 n + j = 52 := ⟨52 - Nat.log 2 n, by omega⟩
  refine ⟨((n * 2 ^ j : ℕ) : ℤ), (Nat.log 2 n : ℤ), ?_, ?_, by omega, ?_⟩
  · have : 2 ^ 52 ≤ n * 2 ^ j := by
      calc 2 ^ 52 = 2 ^ Nat.log 2 n * 2 ^ j := by rw [← pow_add, hj]
        _ ≤ n * 2 ^ j := Nat.mul_le_mul_right _ h1
    exact_mod_cast this
  · have : n * 2 ^ j < 2 ^ 53 := by
      calc n * 2 ^ j < 2 ^ (Nat.log 2 n + 1) * 2 ^ j :=
            Nat.mul_lt_mul_of_pos_right h2 (by positivity)
        _ = 2 ^ 53 := by rw [← pow_add]; congr 1; omega
    exact_mod_cast this
  · have e1 : ((Nat.log 2 n : ℤ) - 52) = -(j : ℤ) := by omega
    rw [e1, zpow_neg, zpow_natCast]
    push_cast
    field_simp

theorem round_natCast_exact {n : ℕ} (h : n < 2 ^ 53) : roundNearestEven (n : ℚ) = n := by
  rcases Nat.eq_zero_or_pos n with rfl | h0
  · simp [roundNearestEven_zero]
  · exact roundNearestEven_of_sig53 (sig53_natCast h0 h)

/-- Evaluation of a rounding: the binade and the nearest significand are given, the
side conditions are checked by computation. -/
theorem round_eval {q : ℚ} (e n : ℤ) (h1 : (2 : ℚ) ^ e ≤ q) (h2 : q < (2 : ℚ) ^ (e + 1))
    (he : -1022 ≤ e) (hn : |q / (2 : ℚ) ^ (e - 52) - n| < 1 / 2) :
    roundNearestEven q = (n : ℚ) * (2 : ℚ) ^ (e - 52) := by
  rw [roundNearestEven_eq h1 h2 he, roundHalfEven_eq_of_abs_lt _ n hn]

theorem round_one_third :
    roundNearestEven (1 / 3) = 6004799503160661 / 18014398509481984 := by
  rw [round_eval (-2) 6004799503160661 (by norm_num) (by norm_num) (by norm_num)
    (by rw [abs_lt]; constructor <;> norm_num)]
  norm_num

theorem round_third_times_100 :
    roundNearestEven (6004799503160661 / 18014398509481984 * 100) =
      2345624805922133 / 70368744177664 := by
  rw [round_eval 5 4691249611844266 (by norm_num) (by norm_num) (by norm_num)
    (by rw [abs_lt]; constructor <;> norm_num)]
  norm_num

theorem round_two_pow_53_add_one :
    roundNearestEven (9007199254740993 : ℚ) = 9007199254740992 := by
  rw [roundNearestEven_eq (e := 53) (by norm_num) (by norm_num) (by norm_num)]
  have : (9007199254740993 : ℚ) / (2 : ℚ) ^ ((53 : ℤ) - 52) =
      ((4503599627370496 : ℤ) : ℚ) + 1 / 2 := by norm_num
  rw [this, roundHalfEven_tie_even _ (by norm_num)]
  norm_num

/-! ## Bounds on the percentage -/

theorem sig53_one : Sig53 (1 : ℚ) := by
  simpa using sig53_zpow (by norm_num : (-1022 : ℤ) ≤ 0)

theorem sig53_100 : Sig53 (100 : ℚ) := by
  simpa using sig53_natCast (by norm_num : 0 < 100) (by norm_num)

theorem round_nonneg_natCast (n : ℕ) (h : n < 2 ^ 64) : 0 ≤ roundNearestEven (n : ℚ) := by
  rcases round_natCast_cases h with hz | ⟨hs, -, -⟩
  · rw [hz]
  · exact (sig53_pos hs).le

theorem round_natCast_mono {a b : ℕ} (hb : b < 2 ^ 64) (h : a ≤ b) :
    roundNearestEven (a : ℚ) ≤ roundNearestEven (b : ℚ) := by
  rcases Nat.eq_zero_or_pos a with rfl | h0
  · simpa [roundNearestEven_zero] using round_nonneg_natCast b hb
  · apply roundNearestEven_mono
    · have h1 : (1 : ℚ) ≤ a := by exact_mod_cast h0
      exact le_trans (zpow_le_one_of_nonpos₀ (by norm_num) (by norm_num)) h1
    · exact_mod_cast h

/-- The closed form of the percentage, with the facts on the two converted counts that
the bounds need. -/
theorem percent_parts (m : nvmlMemory_t) (hu : m.used < 2 ^ 64) (ht : m.total < 2 ^ 64)
    (h0 : 0 < m.total) (hpos : 0 < m.used) :
    (2 : ℚ) ^ (-64 : ℤ) ≤ roundNearestEven m.used / roundNearestEven m.total ∧
      roundNearestEven m.used / roundNearestEven m.total ≤ (2 : ℚ) ^ (64 : ℤ) ∧
      0 < roundNearestEven (m.total : ℚ) := by
  obtain ⟨-, t1, t2⟩ := round_natCast_pos h0 ht
  obtain ⟨-, u1, u2⟩ := round_natCast_pos hpos hu
  have tpos : (0 : ℚ) < roundNearestEven m.total := by linarith
  refine ⟨?_, ?_, tpos⟩
  · rw [le_div_iff₀ tpos]
    calc (2 : ℚ) ^ (-64 : ℤ) * roundNearestEven m.total
        ≤ (2 : ℚ) ^ (-64 : ℤ) * (2 : ℚ) ^ (64 : ℤ) :=
          mul_le_mul_of_nonneg_left t2 (zpow_pos (by norm_num) _).le
      _ = 1 := by norm_num
      _ ≤ _ := u1
  · rw [div_le_iff₀ tpos]
    calc roundNearestEven (m.used : ℚ) ≤ (2 : ℚ) ^ (64 : ℤ) * 1 := by rw [mul_one]; exact u2
      _ ≤ _ := mul_le_mul_of_nonneg_left t1 (zpow_pos (by norm_num) _).le

theorem normal_of_le {q : ℚ} {a : ℤ} (ha : -1022 ≤ a) (h : (2 : ℚ) ^ a ≤ q) :
    (2 : ℚ) ^ (-1022 : ℤ) ≤ q :=
  le_trans ((zpow_le_zpow_iff_right₀ (by norm_num : (1 : ℚ) < 2)).mpr ha) h

theorem percent_le_100 (m : nvmlMemory_t) (hu : m.used < 2 ^ 64) (ht : m.total < 2 ^ 64)
    (h0 : 0 < m.total) (h : m.used ≤ m.total) :
    0 ≤ roundNearestEven
        (roundNearestEven (roundNearestEven m.used / roundNearestEven m.total) * 100) ∧
      roundNearestEven
        (roundNearestEven (roundNearestEven m.used / roundNearestEven m.total) * 100) ≤ 100 := by
  rcases Nat.eq_zero_or_pos m.used with hz | hpos
  · rw [hz]
    simp [roundNearestEven_zero]
  · obtain ⟨q1, q2, tpos⟩ := percent_parts m hu ht h0 hpos
    have hUT := round_natCast_mono ht h
    have hq : roundNearestEven m.used / roundNearestEven m.total ≤ 1 :=
      (div_le_one tpos).mpr hUT
    obtain ⟨-, r1, -⟩ := round_range (by norm_num) q1 q2
    have r2 := round_le_of_le (normal_of_le (by norm_num) q1) sig53_one hq
    have n2 : (2 : ℚ) ^ (-64 : ℤ) ≤
        roundNearestEven (roundNearestEven m.used / roundNearestEven m.total) * 100 := by
      linarith
    constructor
    · exact (sig53_pos (sig53_round (normal_of_le (by norm_num) n2))).le
    · exact round_le_of_le (normal_of_le (by norm_num) n2) sig53_100 (by linarith)

theorem percent_ge_100 (m : nvmlMemory_t) (hu : m.used < 2 ^ 64) (ht : m.total < 2 ^ 64)
    (h0 : 0 < m.total) (h : m.total ≤ m.used) :
    100 ≤ roundNearestEven
      (roundNearestEven (roundNearestEven m.used / roundNearestEven m.total) * 100) := by
  have hpos : 0 < m.used := lt_of_lt_of_le h0 h
  obtain ⟨q1, q2, tpos⟩ := percent_parts m hu ht h0 hpos
  have hUT := round_natCast_mono hu h
  have hq : 1 ≤ roundNearestEven m.used / roundNearestEven m.total :=
    (one_le_div tpos).mpr hUT
  have r2 := le_round_of_le (normal_of_le (by norm_num) q1) sig53_one hq
  have n2 : (2 : ℚ) ^ (0 : ℤ) ≤
      roundNearestEven (roundNearestEven m.used / roundNearestEven m.total) * 100 := by
    rw [zpow_zero]; linarith
  exact le_round_of_le (normal_of_le (by norm_num) n2) sig53_100 (by linarith)

/-- Above `1 + 2^-53` a value rounds to at least `1 + 2^-52`, the successor of 1. -/
theorem succ_one_le_round {q : ℚ} (h : 1 + (2 : ℚ) ^ (-53 : ℤ) < q) :
    1 + (2 : ℚ) ^ (-52 : ℤ) ≤ roundNearestEven q := by
  rcases lt_or_le q 2 with h2 | h2
  · have h1 : (2 : ℚ) ^ (0 : ℤ) ≤ q := by
      rw [zpow_zero]
      have : (0 : ℚ) < (2 : ℚ) ^ (-53 : ℤ) := zpow_pos (by norm_num) _
      linarith
    rw [roundNearestEven_eq h1 (by simpa using h2) (by norm_num)]
    have hlt : ((2 ^ 52 : ℤ) : ℚ) + 1 / 2 < q / (2 : ℚ) ^ ((0 : ℤ) - 52) := by
      rw [lt_div_iff₀ (zpow_pos (by norm_num) _)]
      have e : (((2 ^ 52 : ℤ) : ℚ) + 1 / 2) * (2 : ℚ) ^ ((0 : ℤ) - 52) =
          1 + (2 : ℚ) ^ (-53 : ℤ) := by norm_num
      rw [e]; exact h
    have := lt_roundHalfEven _ _ hlt
    have hc : ((2 ^ 52 + 1 : ℤ) : ℚ) ≤ (roundHalfEven (q / (2 : ℚ) ^ ((0 : ℤ) - 52)) : ℚ) := by
      exact_mod_cast this
    calc 1 + (2 : ℚ) ^ (-52 : ℤ) = ((2 ^ 52 + 1 : ℤ) : ℚ) * (2 : ℚ) ^ ((0 : ℤ) - 52) := by
          norm_num
      _ ≤ _ := mul_le_mul_of_nonneg_right hc (zpow_pos (by norm_num) _).le
  · have h0 : (2 : ℚ) ^ (-1022 : ℤ) ≤ q :=
      le_trans (zpow_le_one_of_nonpos₀ (by norm_num) (by norm_num)) (by linarith)
    have := le_round_of_le h0 (sig53_zpow (by norm_num : (-1022 : ℤ) ≤ 1)) (by simpa using h2)
    have h3 : (1 : ℚ) + (2 : ℚ) ^ (-52 : ℤ) ≤ (2 : ℚ) ^ (1 : ℤ) := by norm_num
    exact h3.trans this

theorem percent_gt_100 (m : nvmlMemory_t) (hu : m.used < 2 ^ 53) (h0 : 0 < m.total)
    (h : m.total < m.used) :
    100 < roundNearestEven
      (roundNearestEven (roundNearestEven m.used / roundNearestEven m.total) * 100) := by
  have ht : m.total < 2 ^ 53 := h.trans hu
  rw [round_natCast_exact hu, round_natCast_exact ht]
  have tpos : (0 : ℚ) < m.total := by exact_mod_cast h0
  have hq : 1 + (2 : ℚ) ^ (-53 : ℤ) < (m.used : ℚ) / m.total := by
    rw [lt_div_iff₀ tpos]
    have h1 : (m.total : ℚ) + 1 ≤ m.used := by exact_mod_cast h
    have h2 : (m.total : ℚ) < 2 ^ 53 := by exact_mod_cast ht
    have e : (2 : ℚ) ^ (-53 : ℤ) = 1 / 2 ^ 53 := by norm_num
    have h3 : (2 : ℚ) ^ (-53 : ℤ) * m.total < 1 := by
      rw [e]; rw [div_mul_eq_mul_div, one_mul, div_lt_one (by norm_num)]; exact h2
    linarith
  have r := succ_one_le_round hq
  have f : Sig53 ((100 : ℚ) + (2 : ℚ) ^ (-46 : ℤ)) := by
    refine ⟨7036874417766401, 6, by norm_num, by norm_num, by norm_num, by norm_num⟩
  have hY : (100 : ℚ) + (2 : ℚ) ^ (-46 : ℤ) ≤
      roundNearestEven ((m.used : ℚ) / m.total) * 100 := by
    have : (100 : ℚ) + (2 : ℚ) ^ (-46 : ℤ) ≤ (1 + (2 : ℚ) ^ (-52 : ℤ)) * 100 := by norm_num
    linarith
  have h0' : (2 : ℚ) ^ (-1022 : ℤ) ≤ roundNearestEven ((m.used : ℚ) / m.total) * 100 := by
    have : (2 : ℚ) ^ (-1022 : ℤ) ≤ 1 := zpow_le_one_of_nonpos₀ (by norm_num) (by norm_num)
    have : (0 : ℚ) < (2 : ℚ) ^ (-46 : ℤ) := zpow_pos (by norm_num) _
    linarith
  have := le_round_of_le h0' f hY
  have : (0 : ℚ) < (2 : ℚ) ^ (-46 : ℤ) := zpow_pos (by norm_num) _
  linarith

/-! ## Distance to the exact quotient -/

/-- A rounding in the normal range moves a value by at most a `2^-53`-th of it. -/
theorem round_rel_err {q : ℚ} (h0 : (2 : ℚ) ^ (-1022 : ℤ) ≤ q) :
    |roundNearestEven q - q| ≤ q / 2 ^ 53 := by
  obtain ⟨h1, h2, he⟩ := normal_binade h0
  have hp : (0 : ℚ) < (2 : ℚ) ^ (Int.log 2 q - 52) := zpow_pos (by norm_num) _
  have hr := abs_sub_roundHalfEven (q / (2 : ℚ) ^ (Int.log 2 q - 52))
  rw [roundNearestEven_eq h1 h2 he]
  have e1 : (roundHalfEven (q / (2 : ℚ) ^ (Int.log 2 q - 52)) : ℚ) * (2 : ℚ) ^ (Int.log 2 q - 52)
      - q = -((q / (2 : ℚ) ^ (Int.log 2 q - 52) -
        roundHalfEven (q / (2 : ℚ) ^ (Int.log 2 q - 52))) * (2 : ℚ) ^ (Int.log 2 q - 52)) := by
    field_simp
    ring
  rw [e1, abs_neg, abs_mul, abs_of_pos hp]
  have e2 : (2 : ℚ) ^ Int.log 2 q = (2 : ℚ) ^ (52 : ℕ) * (2 : ℚ) ^ (Int.log 2 q - 52) := by
    rw [← zpow_split]; congr 1; omega
  calc |q / (2 : ℚ) ^ (Int.log 2 q - 52) - roundHalfEven (q / (2 : ℚ) ^ (Int.log 2 q - 52))|
        * (2 : ℚ) ^ (Int.log 2 q - 52)
      ≤ 1 / 2 * (2 : ℚ) ^ (Int.log 2 q - 52) := mul_le_mul_of_nonneg_right hr hp.le
    _ = (2 : ℚ) ^ Int.log 2 q / 2 ^ 53 := by rw [e2]; ring
    _ ≤ q / 2 ^ 53 := div_le_div_of_nonneg_right h1 (by positivity)

theorem natCast_normal {n : ℕ} (h : 0 < n) : (2 : ℚ) ^ (-1022 : ℤ) ≤ n := by
  have h1 : (1 : ℚ) ≤ n := by exact_mod_cast h
  exact le_trans (zpow_le_one_of_nonpos₀ (by norm_num) (by norm_num)) h1

/-- The computed percentage is within a relative distance `2^-50` of the exact
`used / total × 100`. -/
theorem percent_rel_err (m : nvmlMemory_t) (hu : m.used < 2 ^ 64) (ht : m.total < 2 ^ 64)
    (h0 : 0 < m.total) :
    |roundNearestEven (roundNearestEven (roundNearestEven m.used / roundNearestEven m.total) * 100)
      - (m.used : ℚ) / m.total * 100| ≤ (m.used : ℚ) / m.total * 100 / 2 ^ 50 := by
  rcases Nat.eq_zero_or_pos m.used with hz | hpos
  · rw [hz]
    simp [roundNearestEven_zero]
  · obtain ⟨q1, q2, tpos⟩ := percent_parts m hu ht h0 hpos
    obtain ⟨-, r1, -⟩ := round_range (by norm_num) q1 q2
    have n2 : (2 : ℚ) ^ (-64 : ℤ) ≤
        roundNearestEven (roundNearestEven m.used / roundNearestEven m.total) * 100 := by
      linarith
    have eU := abs_le.mp (round_rel_err (natCast_normal hpos))
    have eT := abs_le.mp (round_rel_err (natCast_normal h0))
    have eX := abs_le.mp (round_rel_err (normal_of_le (by norm_num) q1))
    have eY := abs_le.mp (round_rel_err (normal_of_le (by norm_num) n2))
    have npos : (0 : ℚ) < m.used := by exact_mod_cast hpos
    have tp : (0 : ℚ) < m.total := by exact_mod_cast h0
    have kpos : (0 : ℚ) < (m.used : ℚ) / m.total := div_pos npos tp
    set U := roundNearestEven (m.used : ℚ) with hU
    set T := roundNearestEven (m.total : ℚ) with hT
    set X := U / T with hX
    set r := roundNearestEven X with hr
    set p := roundNearestEven (r * 100) with hp
    set n := (m.used : ℚ) with hn
    set t := (m.total : ℚ) with ht'
    have U1 : U ≤ n * (9007199254740993 / 9007199254740992) := by linarith [eU.2]
    have U2 : n * (9007199254740991 / 9007199254740992) ≤ U := by linarith [eU.1]
    have T1 : T ≤ t * (9007199254740993 / 9007199254740992) := by linarith [eT.2]
    have T2 : t * (9007199254740991 / 9007199254740992) ≤ T := by linarith [eT.1]
    have X1 : X ≤ n / t * (9007199254740993 / 9007199254740991) := by
      calc X ≤ n * (9007199254740993 / 9007199254740992) /
            (t * (9007199254740991 / 9007199254740992)) :=
            div_le_div₀ (by positivity) U1 (by positivity) T2
        _ = n / t * (9007199254740993 / 9007199254740991) := by field_simp
    have X2 : n / t * (9007199254740991 / 9007199254740993) ≤ X := by
      calc n / t * (9007199254740991 / 9007199254740993)
          = n * (9007199254740991 / 9007199254740992) /
            (t * (9007199254740993 / 9007199254740992)) := by field_simp
        _ ≤ X := div_le_div₀ (by linarith) U2 (by positivity) T1
    have Xpos : 0 < X := lt_of_lt_of_le (zpow_pos (by norm_num) _) q1
    have R1 : r ≤ X * (9007199254740993 / 9007199254740992) := by linarith [eX.2]
    have R2 : X * (9007199254740991 / 9007199254740992) ≤ r := by linarith [eX.1]
    have P1 : p ≤ r * 100 * (9007199254740993 / 9007199254740992) := by linarith [eY.2]
    have P2 : r * 100 * (9007199254740991 / 9007199254740992) ≤ p := by linarith [eY.1]
    rw [abs_le]
    constructor
    · have : n / t * (9007199254740991 / 9007199254740993) *
          (9007199254740991 / 9007199254740992) * 100 * (9007199254740991 / 9007199254740992)
          ≤ p := by
        have a1 : n / t * (9007199254740991 / 9007199254740993) *
            (9007199254740991 / 9007199254740992) ≤ r :=
          le_trans (mul_le_mul_of_nonneg_right X2 (by norm_num)) R2
        have a2 := mul_le_mul_of_nonneg_right a1
          (by norm_num : (0 : ℚ) ≤ 100 * (9007199254740991 / 9007199254740992))
        linarith
      have c : n / t * 100 * (1 - 1 / 2 ^ 50) ≤
          n / t * (9007199254740991 / 9007199254740993) *
          (9007199254740991 / 9007199254740992) * 100 * (9007199254740991 / 9007199254740992) := by
        have : (100 : ℚ) * (1 - 1 / 2 ^ 50) ≤ (9007199254740991 / 9007199254740993) *
          (9007199254740991 / 9007199254740992) * 100 * (9007199254740991 / 9007199254740992) := by
          norm_num
        have := mul_le_mul_of_nonneg_left this kpos.le
        linarith
      linarith
    · have : p ≤ n / t * (9007199254740993 / 9007199254740991) *
          (9007199254740993 / 9007199254740992) * 100 * (9007199254740993 / 9007199254740992) := by
        have a1 : r ≤ n / t * (9007199254740993 / 9007199254740991) *
            (9007199254740993 / 9007199254740992) :=
          le_trans R1 (mul_le_mul_of_nonneg_right X1 (by norm_num))
        have a2 := mul_le_mul_of_nonneg_right a1
          (by norm_num : (0 : ℚ) ≤ 100 * (9007199254740993 / 9007199254740992))
        linarith
      have c : n / t * (9007199254740993 / 9007199254740991) *
          (9007199254740993 / 9007199254740992) * 100 * (9007199254740993 / 9007199254740992) ≤
          n / t * 100 * (1 + 1 / 2 ^ 50) := by
        have : (9007199254740993 / 9007199254740991) *
          (9007199254740993 / 9007199254740992) * 100 * (9007199254740993 / 9007199254740992) ≤
            (100 : ℚ) * (1 + 1 / 2 ^ 50) := by
          norm_num
        have := mul_le_mul_of_nonneg_left this kpos.le
        linarith
      linarith

/-! ## The claims on the memory figures -/

/-- The quotient of two converted byte counts, times 100: both operations stay finite. -/
theorem quotient_times_100 {n t : ℕ} (hu : n < 2 ^ 64) (ht : t < 2 ^ 64) (h0 : 0 < t) :
    (Double.ofRat (roundNearestEven n / roundNearestEven t)).mul (Double.finite 100) =
      Double.finite (roundNearestEven (roundNearestEven
        (roundNearestEven n / roundNearestEven t) * 100)) := by
  rcases Nat.eq_zero_or_pos n with rfl | hpos
  · simp only [Nat.cast_zero, roundNearestEven_zero, zero_div, ofRat_zero, Double.mul, zero_mul]
  · obtain ⟨q1, q2, -⟩ := percent_parts ⟨t, 0, n⟩ hu ht h0 hpos
    obtain ⟨-, r1, r2⟩ := round_range (by norm_num) q1 q2
    rw [ofRat_of_range (by norm_num) (by norm_num) q1 q2]
    simp only [Double.mul]
    apply ofRat_of_range (a := -64) (b := 71) (by norm_num) (by norm_num)
    · linarith
    · calc _ ≤ (2 : ℚ) ^ (64 : ℤ) * 100 := by linarith
        _ ≤ (2 : ℚ) ^ (71 : ℤ) := by norm_num

/-- The percentage of line 110 in closed form: the two scalings by `1024.0` cancel and
what is left is the quotient of the converted byte counts, rounded, times 100,
rounded. -/
theorem memUsagePercent_eq (m : nvmlMemory_t) (hu : m.used < 2 ^ 64) (ht : m.total < 2 ^ 64)
    (h0 : 0 < m.total) :
    memUsagePercent m = Double.finite (roundNearestEven
      (roundNearestEven (roundNearestEven m.used / roundNearestEven m.total) * 100)) := by
  obtain ⟨-, t1, -⟩ := round_natCast_pos h0 ht
  have hq : roundNearestEven (m.used : ℚ) / 1024 / 1024 /
      (roundNearestEven (m.total : ℚ) / 1024 / 1024) =
      roundNearestEven m.used / roundNearestEven m.total := by
    field_simp
  rw [memUsagePercent, memUsedMB_eq m hu, memTotalMB_eq m ht]
  simp only [Double.div]
  rw [if_neg (by positivity), hq]
  exact quotient_times_100 hu ht h0

/-- The same closed form for `used / total * 100.0` computed on the byte counts. -/
theorem direct_percent_eq (m : nvmlMemory_t) (hu : m.used < 2 ^ 64) (ht : m.total < 2 ^ 64)
    (h0 : 0 < m.total) :
    ((Double.ofUInt64 m.used).div (Double.ofUInt64 m.total)).mul (Double.finite 100) =
      Double.finite (roundNearestEven
        (roundNearestEven (roundNearestEven m.used / roundNearestEven m.total) * 100)) := by
  obtain ⟨-, t1, -⟩ := round_natCast_pos h0 ht
  rw [ofUInt64_eq hu, ofUInt64_eq ht]
  simp only [Double.div]
  rw [if_neg (by positivity)]
  exact quotient_times_100 hu ht h0

/-- The figures of the sample with 512 MiB used of 1024 MiB. -/
theorem half_GiB_sample :
    memUsedMB ⟨1073741824, 536870912, 536870912⟩ = Double.finite 512 ∧
      memTotalMB ⟨1073741824, 536870912, 536870912⟩ = Double.finite 1024 ∧
      memUsagePercent ⟨1073741824, 536870912, 536870912⟩ = Double.finite 50 := by
  have e1 : roundNearestEven ((536870912 : ℕ) : ℚ) = 536870912 := by
    rw [round_natCast_exact (by norm_num)]; norm_num
  have e2 : roundNearestEven ((1073741824 : ℕ) : ℚ) = 1073741824 := by
    rw [round_natCast_exact (by norm_num)]; norm_num
  have e3 : roundNearestEven ((536870912 : ℚ) / 1073741824) = 1 / 2 := by
    have := roundNearestEven_of_sig53 (sig53_zpow (by norm_num : (-1022 : ℤ) ≤ -1))
    norm_num at this ⊢
    exact this
  have e4 : roundNearestEven ((1 : ℚ) / 2 * 100) = 50 := by
    have := round_natCast_exact (by norm_num : 50 < 2 ^ 53)
    norm_num at this ⊢
    exact this
  refine ⟨?_, ?_, ?_⟩
  · rw [memUsedMB_eq _ (by norm_num)]
    simp only [e1]; norm_num
  · rw [memTotalMB_eq _ (by norm_num)]
    simp only [e2]; norm_num
  · rw [memUsagePercent_eq _ (by norm_num) (by norm_num) (by norm_num)]
    simp only [e1, e2, e3, e4]

theorem memTotalMB_zero (m : nvmlMemory_t) (h : m.total = 0) :
    memTotalMB m = Double.finite 0 := by
  rw [memTotalMB_eq m (by rw [h]; norm_num), h]
  simp [roundNearestEven_zero]

theorem memUsagePercent_zero_total (m : nvmlMemory_t) (hu : m.used < 2 ^ 64)
    (h : m.total = 0) :
    memUsagePercent m = if m.used = 0 then Double.nan else Double.inf false := by
  rw [memUsagePercent, memTotalMB_zero m h, memUsedMB_eq m hu]
  rcases Nat.eq_zero_or_pos m.used with hz | hpos
  · rw [hz, if_pos rfl]
    simp [roundNearestEven_zero, Double.div, Double.mul]
  · obtain ⟨-, u1, -⟩ := round_natCast_pos hpos hu
    have hne : roundNearestEven (m.used : ℚ) / 1024 / 1024 ≠ 0 := by positivity
    have hlt : ¬ roundNearestEven (m.used : ℚ) / 1024 / 1024 < 0 := by
      have : (0 : ℚ) < roundNearestEven (m.used : ℚ) / 1024 / 1024 := by positivity
      exact not_lt.mpr this.le
    rw [if_neg hpos.ne']
    simp [Double.div, Double.mul, hne, hlt]

/-- C6 as the code has it: for a sample with `total > 0` (byte counts of 64 bits) the
percentage the code computes through the two scalings by `1024.0` is the very
`double` that `used / total * 100.0` gives on the byte counts, every conversion,
the division and the multiplication being rounded to nearest; it lies within a
relative distance of `2^-50` of the exact rational `used / total × 100`.  For 512 MiB
used of 1024 MiB the three figures are exactly 512, 1024 and 50. -/
theorem memUsagePercent_rounded_quotient (m : nvmlMemory_t) (hu : m.used < 2 ^ 64)
    (ht : m.total < 2 ^ 64) (h0 : 0 < m.total) :
    memUsagePercent m =
        ((Double.ofUInt64 m.used).div (Double.ofUInt64 m.total)).mul (Double.finite 100) ∧
      (∃ p, memUsagePercent m = Double.finite p ∧
        |p - (m.used : ℚ) / m.total * 100| ≤ (m.used : ℚ) / m.total * 100 / 2 ^ 50) ∧
      memUsedMB ⟨1073741824, 536870912, 536870912⟩ = Double.finite 512 ∧
      memTotalMB ⟨1073741824, 536870912, 536870912⟩ = Double.finite 1024 ∧
      memUsagePercent ⟨1073741824, 536870912, 536870912⟩ = Double.finite 50 :=
  ⟨by rw [memUsagePercent_eq m hu ht h0, direct_percent_eq m hu ht h0],
    ⟨_, memUsagePercent_eq m hu ht h0, percent_rel_err m hu ht h0⟩, half_GiB_sample⟩

/-- Witness of C6: 1 GiB used of 3 GiB. -/
theorem memUsagePercent_rounded_quotient_witness :
    ∃ p, memUsagePercent ⟨3221225472, 2147483648, 1073741824⟩ = Double.finite p ∧
      |p - ((1073741824 : ℕ) : ℚ) / (3221225472 : ℕ) * 100| ≤
        ((1073741824 : ℕ) : ℚ) / (3221225472 : ℕ) * 100 / 2 ^ 50 :=
  (memUsagePercent_rounded_quotient ⟨3221225472, 2147483648, 1073741824⟩
    (by norm_num) (by norm_num) (by norm_num)).2.1

/-- C6 fails as stated: for 1 GiB used of 3 GiB the computed percentage is the `double`
`2345624805922133 / 2^46` and not the rational `1/3 × 100`. -/
theorem memUsagePercent_one_third :
    memUsagePercent ⟨3221225472, 2147483648, 1073741824⟩ =
        Double.finite (2345624805922133 / 70368744177664) ∧
      memUsagePercent ⟨3221225472, 2147483648, 1073741824⟩ ≠
        Double.finite ((1073741824 : ℚ) / 3221225472 * 100) := by
  have e1 : roundNearestEven ((1073741824 : ℕ) : ℚ) = 1073741824 := by
    rw [round_natCast_exact (by norm_num)]; norm_num
  have e2 : roundNearestEven ((3221225472 : ℕ) : ℚ) = 3221225472 := by
    rw [round_natCast_exact (by norm_num)]; norm_num
  have e3 : (1073741824 : ℚ) / 3221225472 = 1 / 3 := by norm_num
  have h : memUsagePercent ⟨3221225472, 2147483648, 1073741824⟩ =
      Double.finite (2345624805922133 / 70368744177664) := by
    rw [memUsagePercent_eq _ (by norm_num) (by norm_num) (by norm_num)]
    simp only [e1, e2, e3, round_one_third, round_third_times_100]
  refine ⟨h, ?_⟩
  rw [h]
  intro hc
  have := Double.finite.inj hc
  norm_num at this

/-- C10 as the code has it, for byte counts of 64 bits.  With `total > 0` and
`used ≤ total` the three figures are finite, used-megabytes is at most
total-megabytes and the percentage lies between 0 and 100.  Nothing is validated: the
sample line carries whatever the three expressions give.  With `used > total` the
percentage is at least 100, and above 100 whenever `used` is below `2^53`, where the
conversion to `double` is exact.  With `total = 0` the division is by `0.0`: the
percentage is NaN for `used = 0` and `+∞` otherwise. -/
theorem memUsagePercent_bounds (m : nvmlMemory_t) (hu : m.used < 2 ^ 64)
    (ht : m.total < 2 ^ 64) :
    (0 < m.total → m.used ≤ m.total → ∃ a b p,
        memUsedMB m = Double.finite a ∧ memTotalMB m = Double.finite b ∧
        memUsagePercent m = Double.finite p ∧ 0 ≤ a ∧ a ≤ b ∧ 0 ≤ p ∧ p ≤ 100) ∧
      (∀ u : nvmlUtilization_t, sampleLine u m =
        Out.sample u.gpu (memUsedMB m) (memTotalMB m) (memUsagePercent m)) ∧
      (0 < m.total → m.total < m.used → ∃ p,
        memUsagePercent m = Double.finite p ∧ 100 ≤ p ∧ (m.used < 2 ^ 53 → 100 < p)) ∧
      (m.total = 0 → memTotalMB m = Double.finite 0 ∧
        memUsagePercent m = if m.used = 0 then Double.nan else Double.inf false) := by
  refine ⟨fun h0 h => ?_, fun _ => rfl, fun h0 h => ?_, fun h => ?_⟩
  · refine ⟨_, _, _, memUsedMB_eq m hu, memTotalMB_eq m ht, memUsagePercent_eq m hu ht h0,
      ?_, ?_, (percent_le_100 m hu ht h0 h).1, (percent_le_100 m hu ht h0 h).2⟩
    · have := round_nonneg_natCast m.used hu
      positivity
    · have := round_natCast_mono ht h
      linarith
  · exact ⟨_, memUsagePercent_eq m hu ht h0, percent_ge_100 m hu ht h0 h.le,
      fun h53 => percent_gt_100 m h53 h0 h⟩
  · exact ⟨memTotalMB_zero m h, memUsagePercent_zero_total m hu h⟩

/-- Witness of C10: 512 MiB used of 1024 MiB. -/
theorem memUsagePercent_bounds_witness :
    ∃ a b p, memUsedMB ⟨1073741824, 536870912, 536870912⟩ = Double.finite a ∧
      memTotalMB ⟨1073741824, 536870912, 536870912⟩ = Double.finite b ∧
      memUsagePercent ⟨1073741824, 536870912, 536870912⟩ = Double.finite p ∧
      0 ≤ a ∧ a ≤ b ∧ 0 ≤ p ∧ p ≤ 100 :=
  (memUsagePercent_bounds ⟨1073741824, 536870912, 536870912⟩ (by norm_num) (by norm_num)).1
    (by norm_num) (by norm_num)

/-- C10 fails as stated: with `used = 2^53 + 1` and `total = 2^53` the conversion of
`used` rounds to `2^53` and the percentage is exactly 100, although `used > total`. -/
theorem memUsagePercent_not_above_100 :
    (9007199254740992 : ℕ) < 9007199254740993 ∧
      memUsagePercent ⟨9007199254740992, 0, 9007199254740993⟩ = Double.finite 100 := by
  have e1 : roundNearestEven ((9007199254740993 : ℕ) : ℚ) = 9007199254740992 := by
    have := round_two_pow_53_add_one
    norm_num at this ⊢
    exact this
  have e2 : roundNearestEven ((9007199254740992 : ℕ) : ℚ) = 9007199254740992 := by
    have := roundNearestEven_of_sig53 (sig53_zpow (by norm_num : (-1022 : ℤ) ≤ 53))
    norm_num at this ⊢
    exact this
  have e3 : roundNearestEven (1 : ℚ) = 1 := roundNearestEven_of_sig53 sig53_one
  have e4 : roundNearestEven (100 : ℚ) = 100 := roundNearestEven_of_sig53 sig53_100
  refine ⟨by norm_num, ?_⟩
  rw [memUsagePercent_eq _ (by norm_num) (by norm_num) (by norm_num)]
  simp only [e1, e2]
  rw [div_self (by norm_num), e3, one_mul, e4]

end Baseline
